import Mathlib

/-!
Verification of the satisfactory_optimizer supply-chain analyzer.

This file gives a shallow embedding of the flow-graph analysis pipeline
(webapp/graph_analyzer.py, webapp/graph_algorithms.py and the direction
resolution loops of webapp/save_parser.py) and proves or refutes the
specification claims about it.  Machine ids and edge ids are strings, as
in the Python source; rates are rationals (the embedding of the float
arithmetic); a Python dict is an association list in insertion order,
looked up by first matching key.  Python while loops carry an explicit
fuel equal to the bound hard-coded in the source (or a safe over-estimate
where the source loop is bounded only by the structure of the data).
-/

namespace SatOpt

/-- Lookup in an association list (dict access with a default). -/
def findA {α : Type} : List (String × α) → String → α → α
  | [], _, d => d
  | p :: t, k, d => if p.1 = k then p.2 else findA t k d

/-- Key membership in an association list (the Python in operator). -/
def hasKey {α : Type} : List (String × α) → String → Bool
  | [], _ => false
  | p :: t, k => if p.1 = k then true else hasKey t k

/-- Bool list membership by decidable equality. -/
def memB {α : Type} [DecidableEq α] : List α → α → Bool
  | [], _ => false
  | y :: t, x => if y = x then true else memB t x

/-- Filter by a decidable predicate. -/
def filterB {α : Type} (p : α → Prop) [DecidablePred p] : List α → List α
  | [] => []
  | x :: t => if p x then x :: filterB p t else filterB p t

/-- Indexed read with a default (list.getD). -/
def nthD {α : Type} : List α → Nat → α → α
  | [], _, d => d
  | x :: _, 0, _ => x
  | _ :: t, n + 1, d => nthD t n d

/-- Indexed write (list.set; out-of-range writes are no-ops). -/
def setN {α : Type} : List α → Nat → α → List α
  | [], _, _ => []
  | _ :: t, 0, v => v :: t
  | x :: t, n + 1, v => x :: setN t n v

/-- Bool prefix test on character lists. -/
def isPrefixB : List Char → List Char → Bool
  | [], _ => true
  | _ :: _, [] => false
  | c :: ct, d :: dt => if c = d then isPrefixB ct dt else false

/-- Point update of an association list (mutation of an existing dict
entry; a missing key is a silent no-op, which never happens on the
well-formed inputs the source runs on). -/
def updA {α : Type} (l : List (String × α)) (k : String) (f : α → α) : List (String × α) :=
  l.map (fun p => (p.1, if p.1 = k then f p.2 else p.2))

/-- The key list of an association list (dict iteration order). -/
def keysA {α : Type} (l : List (String × α)) : List String := l.map Prod.fst

/-- A directed edge of the production graph (class FlowEdge in
graph_analyzer.py). -/
structure FlowEdge where
  src : String
  dst : String
  max_rate : ℚ
  is_pipe : Bool
  flow_rate : ℚ
deriving Repr, DecidableEq, Inhabited

/-- A node of the production graph (class FlowNode in graph_analyzer.py).
The expected rate maps are association lists; recipe_data is reduced to
its presence, since the rates it induces are stored on the node by
build_flow_graph. -/
structure FlowNode where
  building_name : String
  category : String
  has_recipe : Bool
  clock_speed : ℚ
  is_producing : Bool
  expected_inputs : List (String × ℚ)
  expected_outputs : List (String × ℚ)
  available_input : ℚ
  available_output : ℚ
  in_edges : List String
  out_edges : List String
deriving Repr, DecidableEq, Inhabited

/-- The nodes and edges dictionaries of the analyzer. -/
structure FlowGraph where
  nodes : List (String × FlowNode)
  edges : List (String × FlowEdge)
deriving Repr, DecidableEq, Inhabited

def getNode (g : FlowGraph) (nid : String) : FlowNode := findA g.nodes nid default

def getEdge (g : FlowGraph) (eid : String) : FlowEdge := findA g.edges eid default

def updNode (g : FlowGraph) (nid : String) (f : FlowNode → FlowNode) : FlowGraph :=
  { g with nodes := updA g.nodes nid f }

def updEdge (g : FlowGraph) (eid : String) (f : FlowEdge → FlowEdge) : FlowGraph :=
  { g with edges := updA g.edges eid f }

/-- Bool test that pat occurs as a contiguous sublist of s. -/
def isInfixB (pat : List Char) : List Char → Bool
  | [] => pat.isEmpty
  | c :: t => isPrefixB pat (c :: t) || isInfixB pat t

/-- The Python substring operator pat in s. -/
def strContains (s pat : String) : Bool := isInfixB pat.toList s.toList

/-- Sum of the values of an expected-rate map. -/
def ratesSum (l : List (String × ℚ)) : ℚ := (l.map Prod.snd).sum

/-- Total incoming flow of a node: the sum of flow_rate over its
in_edges, as computed at the top of _calculate_node_flow. -/
def totalIn (g : FlowGraph) (n : FlowNode) : ℚ :=
  (n.in_edges.map (fun e => (getEdge g e).flow_rate)).sum

/-- The per-edge write loop: each listed edge gets
flow_rate := min v max_rate (v is the candidate value computed before
the loop, the min is the per-conduit cap of the source). -/
def setOutFlows (g : FlowGraph) (outs : List String) (v : ℚ) : FlowGraph :=
  outs.foldl (fun g e => updEdge g e (fun ed => { ed with flow_rate := min v ed.max_rate })) g

/-- MINER_BASE_RATES of graph_analyzer.py. -/
def MINER_BASE_RATES : List (String × ℚ) :=
  [("Miner Mk.1", 60), ("Miner Mk.2", 120), ("Miner Mk.3", 240),
   ("Oil Extractor", 120), ("Water Extractor", 120),
   ("Resource Well Extractor", 60), ("Resource Well Pressurizer", 0)]

/-- MINER_BASE_RATES.get(name, 0). -/
def miner_base_rate (name : String) : ℚ := findA MINER_BASE_RATES name 0

/-- _calculate_node_flow of graph_analyzer.py: evaluate one node from its
incoming edge flows and write its outgoing edge flows. -/
def calculate_node_flow (nid : String) (g : FlowGraph) : FlowGraph :=
  let node := getNode g nid
  let total_in := totalIn g node
  let g1 := updNode g nid (fun n => { n with available_input := total_in })
  if node.category = "miner" then
    g1
  else if node.category = "logistics" then
    let g2 := updNode g1 nid (fun n => { n with available_output := total_in })
    if node.out_edges.isEmpty then g2
    else if strContains node.building_name "Splitter"
        || strContains node.building_name "Smart Splitter"
        || strContains node.building_name "Programmable Splitter" then
      setOutFlows g2 node.out_edges (total_in / (node.out_edges.length : ℚ))
    else if strContains node.building_name "Merger" then
      setOutFlows g2 node.out_edges total_in
    else if strContains node.building_name "Pipe Junction" then
      setOutFlows g2 node.out_edges (total_in / ((max node.out_edges.length 1 : ℕ) : ℚ))
    else if strContains node.building_name "Pipeline Pump" then
      setOutFlows g2 node.out_edges total_in
    else
      setOutFlows g2 node.out_edges (total_in / ((max node.out_edges.length 1 : ℕ) : ℚ))
  else if (node.category = "production" ∨ node.category = "generator") ∧ node.has_recipe then
    let total_expected_input := ratesSum node.expected_inputs
    let input_sufficiency : ℚ :=
      if 0 < total_expected_input then min (total_in / total_expected_input) 1 else 1
    let actual_output := ratesSum node.expected_outputs * input_sufficiency
    let g2 := updNode g1 nid (fun n => { n with available_output := actual_output })
    if node.out_edges.isEmpty then g2
    else setOutFlows g2 node.out_edges (actual_output / (node.out_edges.length : ℚ))
  else if node.category = "storage" ∨ node.category = "transport" then
    let g2 := updNode g1 nid (fun n => { n with available_output := total_in })
    if node.out_edges.isEmpty then g2
    else setOutFlows g2 node.out_edges (total_in / ((max node.out_edges.length 1 : ℕ) : ℚ))
  else
    g1

/-- One member step of the _fixed_point_scc sweep: re-evaluate the node,
damp its output with factor 0.7, rewrite its outgoing edge flows from the
damped value, and report the absolute damped delta. -/
def scc_process_node (g : FlowGraph) (nid : String) : FlowGraph × ℚ :=
  let old_output := (getNode g nid).available_output
  let g1 := calculate_node_flow nid g
  let new_output := (getNode g1 nid).available_output
  let damped := (7/10 : ℚ) * new_output + (1 - 7/10) * old_output
  let g2 := updNode g1 nid (fun n => { n with available_output := damped })
  let g3 :=
    if (getNode g2 nid).out_edges.isEmpty then g2
    else setOutFlows g2 (getNode g2 nid).out_edges
      (damped / ((getNode g2 nid).out_edges.length : ℚ))
  (g3, |damped - old_output|)

/-- One full sweep over the SCC members, tracking max_delta. -/
def scc_sweep (scc_l : List String) (g : FlowGraph) : FlowGraph × ℚ :=
  scc_l.foldl (fun acc nid =>
    let r := scc_process_node acc.1 nid
    (r.1, max acc.2 r.2)) (g, 0)

/-- The iteration loop of _fixed_point_scc: sweep, stop when the sweep
max_delta fell below epsilon, at most fuel sweeps. -/
def fixed_point_go (scc_l : List String) (epsilon : ℚ) : Nat → FlowGraph → FlowGraph
  | 0, g => g
  | fuel + 1, g =>
    let r := scc_sweep scc_l g
    if r.2 < epsilon then r.1 else fixed_point_go scc_l epsilon fuel r.1

/-- _fixed_point_scc with its default arguments max_iter=100,
epsilon=0.01. -/
def fixed_point_scc (scc_l : List String) (g : FlowGraph) : FlowGraph :=
  fixed_point_go scc_l (1/100) 100 g

/-- One node of the miner initialization loop at the top of
propagate_flow. -/
def init_step (g : FlowGraph) (nid : String) : FlowGraph :=
  let node := getNode g nid
  if node.category = "miner" then
    let avail := miner_base_rate node.building_name * node.clock_speed
    let g1 := updNode g nid (fun n => { n with available_output := avail })
    if node.out_edges.isEmpty then g1
    else setOutFlows g1 node.out_edges (avail / (node.out_edges.length : ℚ))
  else g

/-- The miner initialization loop at the top of propagate_flow. -/
def init_miners (g : FlowGraph) : FlowGraph :=
  (keysA g.nodes).foldl init_step g

/-- An adjacency dictionary: insertion-ordered key list plus successor
lists. -/
structure Adj where
  keys : List String
  succ : String → List String

/-- The adjacency built at the top of propagate_flow from the edges whose
endpoints are both in nodes. -/
def build_adj (g : FlowGraph) : Adj :=
  g.edges.foldl (fun a pe =>
    let e := pe.2
    if hasKey g.nodes e.src ∧ hasKey g.nodes e.dst then
      { keys := if memB a.keys e.src then a.keys else a.keys ++ [e.src],
        succ := fun s => if s = e.src then a.succ s ++ [e.dst] else a.succ s }
    else a) ⟨[], fun _ => []⟩

/-- Append an element to a list if not already present (set insertion in
first-seen order). -/
def insertNew (acc : List String) (x : String) : List String :=
  if memB acc x then acc else acc ++ [x]

/-- all_nodes of tarjan_scc: the keys of adj together with every
successor, each node once, in first-seen order. -/
def all_nodes_of (a : Adj) : List String :=
  a.keys.foldl (fun acc k => (a.succ k).foldl insertNew acc) a.keys

/-- The mutable state of the iterative Tarjan run.  The Python stack list
(append and pop at the right end) is modelled with its top at the head. -/
structure TarjanSt where
  counter : Nat
  stack : List String
  on_stack : List String
  index : String → Option Nat
  lowlink : String → Nat
  result : List (List String)

/-- Give a node its DFS index and push it (the four statements that
accompany every discovery of an unindexed node in tarjan_scc). -/
def tarjan_visit (st : TarjanSt) (w : String) : TarjanSt :=
  { st with
    index := fun s => if s = w then some st.counter else st.index s,
    lowlink := fun s => if s = w then st.counter else st.lowlink s,
    counter := st.counter + 1,
    stack := w :: st.stack,
    on_stack := w :: st.on_stack }

/-- The inner for w in neighbors loop of one while iteration: fold the
lowlink updates from already-indexed on-stack neighbors, and stop at the
first unindexed neighbor (returning it with the rest of the iterator). -/
def tarjan_scan (st : TarjanSt) (v : String) :
    List String → TarjanSt × Option (String × List String)
  | [] => (st, none)
  | w :: rest =>
    match st.index w with
    | none => (st, some (w, rest))
    | some iw =>
      if memB st.on_stack w then
        tarjan_scan
          { st with lowlink := fun s => if s = v then min (st.lowlink v) iw else st.lowlink s }
          v rest
      else tarjan_scan st v rest

/-- Unwind the component stack down to and including v, returning the
popped component (in pop order) and the remaining stack. -/
def pop_scc : List String → String → List String × List String
  | [], _ => ([], [])
  | w :: rest, v =>
    if w = v then ([w], rest)
    else
      let r := pop_scc rest v
      (w :: r.1, r.2)

/-- The while call_stack loop of tarjan_scc.  Frames hold the node and
its remaining neighbor iterator. -/
def tarjan_loop (a : Adj) : Nat → TarjanSt → List (String × List String) → TarjanSt
  | 0, st, _ => st
  | _ + 1, st, [] => st
  | fuel + 1, st, (v, neighbors) :: frames =>
    match tarjan_scan st v neighbors with
    | (st1, some (w, rest)) =>
      tarjan_loop a fuel (tarjan_visit st1 w) ((w, a.succ w) :: (v, rest) :: frames)
    | (st1, none) =>
      let st2 :=
        match frames with
        | (p, _) :: _ =>
          { st1 with lowlink := fun s =>
              if s = p then min (st1.lowlink p) (st1.lowlink v) else st1.lowlink s }
        | [] => st1
      if st2.lowlink v = (st2.index v).getD 0 then
        let pr := pop_scc st2.stack v
        tarjan_loop a fuel
          { st2 with stack := pr.2,
                     on_stack := filterB (fun s => memB pr.1 s = false) st2.on_stack,
                     result := st2.result ++ [pr.1] } frames
      else tarjan_loop a fuel st2 frames

/-- Fuel bound for one DFS: every while iteration either indexes a new
node or pops a frame, and at most one frame is pushed per indexed node. -/
def tarjan_fuel (a : Adj) : Nat := 2 * (all_nodes_of a).length + 2

/-- The outer for start in all_nodes loop of tarjan_scc. -/
def tarjan_outer (a : Adj) : List String → TarjanSt → TarjanSt
  | [], st => st
  | start :: rest, st =>
    match st.index start with
    | some _ => tarjan_outer a rest st
    | none =>
      let st1 := tarjan_visit st start
      let st2 := tarjan_loop a (tarjan_fuel a) st1 [(start, a.succ start)]
      tarjan_outer a rest st2

/-- tarjan_scc of graph_algorithms.py: the list of strongly connected
components, each as a list of members in pop order, components in pop
order. -/
def tarjan_scc (a : Adj) : List (List String) :=
  (tarjan_outer a (all_nodes_of a) ⟨0, [], [], fun _ => none, fun _ => 0, []⟩).result

/-- scc_index lookup helper: first component index containing nid,
counting from i. -/
def scc_index_go (nid : String) : List (List String) → Nat → Option Nat
  | [], _ => none
  | scc :: rest, i => if memB scc nid then some i else scc_index_go nid rest (i + 1)

/-- scc_index lookup: the index of the component containing nid. -/
def scc_index_of (sccs : List (List String)) (nid : String) : Option Nat :=
  scc_index_go nid sccs 0

/-- The condensation data of condensation_topo_order: integer in-degrees
(Python ints may in principle go negative during Kahn, hence ℤ) and the
deduplicated cross-component adjacency. -/
structure Cond where
  indeg : List ℤ
  cadj : Nat → List Nat

/-- Build the condensation DAG from the SCC list and the original
adjacency. -/
def build_cond (sccs : List (List String)) (a : Adj) : Cond :=
  a.keys.foldl (fun c src =>
    match scc_index_of sccs src with
    | none => c
    | some si =>
      (a.succ src).foldl (fun c dst =>
        match scc_index_of sccs dst with
        | none => c
        | some sj =>
          if si = sj then c
          else if memB (c.cadj si) sj then c
          else { indeg := setN c.indeg sj (nthD c.indeg sj 0 + 1),
                 cadj := fun i => if i = si then c.cadj i ++ [sj] else c.cadj i }) c)
    ⟨List.replicate sccs.length 0, fun _ => []⟩

/-- Kahn's algorithm queue loop (each component index enters the queue at
most once, so fuel = number of components suffices). -/
def kahn_go (cadj : Nat → List Nat) : Nat → List Nat → List ℤ → List Nat → List Nat
  | 0, _, _, topo => topo
  | _ + 1, [], _, topo => topo
  | fuel + 1, u :: q, indeg, topo =>
    let r := (cadj u).foldl (fun (pr : List ℤ × List Nat) v =>
        let d := nthD pr.1 v 0 - 1
        (setN pr.1 v d, if d = 0 then pr.2 ++ [v] else pr.2)) (indeg, q)
    kahn_go cadj fuel r.2 r.1 (topo ++ [u])

/-- condensation_topo_order of graph_algorithms.py (the topo component of
its result). -/
def condensation_topo_order (sccs : List (List String)) (a : Adj) : List Nat :=
  let c := build_cond sccs a
  let q0 := filterB (fun i => nthD c.indeg i 0 = 0) (List.range sccs.length)
  kahn_go c.cadj (sccs.length + 1) q0 c.indeg []

/-- propagate_flow of graph_analyzer.py: miner initialization, SCC
decomposition, then per-component evaluation in topological order. -/
def comp_step (sccs : List (List String)) (g : FlowGraph) (i : Nat) : FlowGraph :=
  match nthD sccs i [] with
  | [nid] => calculate_node_flow nid g
  | scc_l => fixed_point_scc scc_l g

/-- propagate_flow phase 3: the per-component dispatch in topological
order. -/
def propagate_flow (g : FlowGraph) : FlowGraph :=
  let a := build_adj g
  let g1 := init_miners g
  let sccs := tarjan_scc a
  let topo := condensation_topo_order sccs a
  topo.foldl (comp_step sccs) g1

/-- An entry of the trace list attached to a root-caused issue. -/
inductive PathEntry where
  | node (id : String)
  | edge (id : String)
deriving Repr, DecidableEq

/-- The root-cause fields returned by the dominator walks (the formatted
suggestion string is presentation only and not modelled). -/
structure TraceOut where
  root_cause : String
  dominator_id : Option String
  trace : List PathEntry
deriving Repr, DecidableEq

def VIRTUAL_SOURCE : String := "__VIRTUAL_SOURCE__"

/-- The for eid in out_edges search loop of _find_edge_between. -/
def find_edge_go (g : FlowGraph) (to_nid : String) : List String → Option String
  | [] => none
  | eid :: rest =>
    if (getEdge g eid).dst = to_nid then some eid else find_edge_go g to_nid rest

/-- _find_edge_between of graph_analyzer.py, returning the edge id. -/
def find_edge_between (g : FlowGraph) (from_nid to_nid : String) : Option String :=
  if hasKey g.nodes from_nid then
    find_edge_go g to_nid (getNode g from_nid).out_edges
  else none

/-- The 30-step dominator walk of _dominator_trace_starvation.  fuel is
the remaining loop iterations; visited and path carry the walk state. -/
def dom_trace_go (g : FlowGraph) (idom : String → Option String) :
    Nat → String → List String → List PathEntry → TraceOut
  | 0, _, _, path => ⟨"Complex Chain", none, path⟩
  | fuel + 1, current, visited, path =>
    match idom current with
    | none => ⟨"Complex Chain", none, path⟩
    | some dom =>
      if dom = "" ∨ dom = VIRTUAL_SOURCE then ⟨"Complex Chain", none, path⟩
      else if ¬ hasKey g.nodes dom then ⟨"Complex Chain", none, path⟩
      else if memB visited dom then ⟨"Feedback Loop (Dominator)", some dom, path⟩
      else
        let dom_node := getNode g dom
        let connecting :=
          match find_edge_between g dom current with
          | some eid => some eid
          | none => dom_node.out_edges.head?
        let path1 :=
          match connecting with
          | some eid => path ++ [PathEntry.edge eid]
          | none => path
        let path2 := path1 ++ [PathEntry.node dom]
        let bottleneck :=
          match connecting with
          | some eid => decide ((getEdge g eid).max_rate * (99/100) ≤ (getEdge g eid).flow_rate)
          | none => false
        if bottleneck then ⟨"Belt Bottleneck (Dominator)", some dom, path2⟩
        else if dom_node.category = "production" ∧ dom_node.has_recipe then
          let total_expected := ratesSum dom_node.expected_inputs
          if 0 < total_expected ∧ dom_node.available_input / total_expected < 95/100 then
            dom_trace_go g idom fuel dom (dom :: visited) path2
          else if dom_node.clock_speed < 5/2 then ⟨"Underclocked Dominator", some dom, path2⟩
          else ⟨"Capacity-Limited Dominator", some dom, path2⟩
        else if dom_node.category = "miner" then
          if dom_node.clock_speed < 5/2 then ⟨"Underclocked Miner (Dominator)", some dom, path2⟩
          else ⟨"Miner Rate Limit (Dominator)", some dom, path2⟩
        else dom_trace_go g idom fuel dom (dom :: visited) path2

/-- _dominator_trace_starvation: the walk starts at the starved node with
it alone visited and on the path, and runs at most 30 steps. -/
def dominator_trace_starvation (g : FlowGraph) (idom : String → Option String)
    (start : String) : TraceOut :=
  dom_trace_go g idom 30 start [start] [PathEntry.node start]

/-- The Belt Bottleneck rule of analyze_supply_chain: the emitted
(edge id, severity) pairs, in edge order. -/
def belt_bottleneck_issues (g : FlowGraph) : List (String × String) :=
  g.edges.foldl (fun acc pe =>
    let e := pe.2
    if e.max_rate * (95/100) ≤ e.flow_rate ∧ 0 < e.flow_rate then
      acc ++ [(pe.1, if e.max_rate < e.flow_rate then "error" else "warning")]
    else acc) []

/-- The Clock Too High rule of analyze_supply_chain: the building ids it
emits an issue for, in node order. -/
def clock_too_high_ids (g : FlowGraph) : List String :=
  g.nodes.foldl (fun acc pn =>
    let nid := pn.1
    let node := pn.2
    if node.category ≠ "production" ∨ ¬ node.has_recipe then acc
    else if node.expected_inputs.isEmpty ∨ node.in_edges.isEmpty then acc
    else
      let total_expected := ratesSum node.expected_inputs
      if total_expected ≤ 0 then acc
      else
        let max_input_capacity := (node.in_edges.map (fun eid => (getEdge g eid).max_rate)).sum
        if 0 < max_input_capacity ∧ max_input_capacity * (105/100) < total_expected then
          acc ++ [nid]
        else acc) []

/-! Direction-resolution loops of save_parser.py (parse_save passes 3.5
and 4).  Only the belt dictionary fields these loops read and write are
modelled. -/

/-- A belt or pipe during parsing (the src/dst fields of class Belt). -/
structure PBelt where
  src_building : Option String
  dst_building : Option String
  is_pipe : Bool
deriving Repr, DecidableEq, Inhabited

/-- The belt registration lists of a building during parsing. -/
structure PBuilding where
  input_belts : List String
  output_belts : List String
deriving Repr, DecidableEq, Inhabited

/-- The parse state the two iterative loops operate on. -/
structure ParseState where
  belts : List (String × PBelt)
  buildings : List (String × PBuilding)
deriving Repr, DecidableEq, Inhabited

def getBelt (s : ParseState) (bid : String) : PBelt := findA s.belts bid default

def updBelt (s : ParseState) (bid : String) (f : PBelt → PBelt) : ParseState :=
  { s with belts := updA s.belts bid f }

def updBuilding (s : ParseState) (bid : String) (f : PBuilding → PBuilding) : ParseState :=
  { s with buildings := updA s.buildings bid f }

/-- One pipe_end connection entry: (pipe id, other id, other is a
building). -/
abbrev PipeConn := String × String × Bool

/-- The body of the pipe-direction loop for one connection entry:
returns the new state and whether it changed anything. -/
def pipe_conn_step (s : ParseState) (c : PipeConn) : ParseState × Bool :=
  let pipe := getBelt s c.1
  if c.2.2 then
    if pipe.src_building.isSome ∧ pipe.dst_building.isNone then
      let s1 := updBelt s c.1 (fun b => { b with dst_building := some c.2.1 })
      let s2 := updBuilding s1 c.2.1 (fun b =>
        if memB b.input_belts c.1 then b
        else { b with input_belts := b.input_belts ++ [c.1] })
      (s2, true)
    else if pipe.dst_building.isSome ∧ pipe.src_building.isNone then
      let s1 := updBelt s c.1 (fun b => { b with src_building := some c.2.1 })
      let s2 := updBuilding s1 c.2.1 (fun b =>
        if memB b.output_belts c.1 then b
        else { b with output_belts := b.output_belts ++ [c.1] })
      (s2, true)
    else (s, false)
  else (s, false)

/-- One full pass of the pipe-direction loop over all connections. -/
def pipe_pass (conns : List PipeConn) (s : ParseState) : ParseState × Bool :=
  conns.foldl (fun acc c =>
    let r := pipe_conn_step acc.1 c
    (r.1, acc.2 || r.2)) (s, false)

/-- The while changed pipe loop (the source bounds it by 100
iterations). -/
def pipe_loop (conns : List PipeConn) : Nat → ParseState → ParseState
  | 0, s => s
  | fuel + 1, s =>
    let r := pipe_pass conns s
    if r.2 then pipe_loop conns fuel r.1 else r.1

/-- One belt-chain adjacency entry: (belt id, neighbor id, forward?). -/
abbrev BeltConn := String × String × Bool

/-- Copy the src_building of belt x onto belt y when y has none yet
(the body of one if of the belt-chain loop). -/
def propagate_src (s : ParseState) (x y : String) : ParseState × Bool :=
  if (getBelt s x).src_building.isSome ∧ (getBelt s y).src_building.isNone then
    (updBelt s y (fun b => { b with src_building := (getBelt s x).src_building }), true)
  else (s, false)

/-- Copy the dst_building of belt x onto belt y when y has none yet. -/
def propagate_dst (s : ParseState) (x y : String) : ParseState × Bool :=
  if (getBelt s x).dst_building.isSome ∧ (getBelt s y).dst_building.isNone then
    (updBelt s y (fun b => { b with dst_building := (getBelt s x).dst_building }), true)
  else (s, false)

/-- The body of the belt-chain loop for one adjacency entry: in the
forward direction items flow belt → neighbor, so the neighbor inherits
the belt's src and then the belt inherits the (possibly just-updated)
neighbor's dst; the backward direction is the mirror image.  The second
if of the source reads the fields after the first has mutated them. -/
def belt_conn_step (s : ParseState) (c : BeltConn) : ParseState × Bool :=
  if c.2.2 then
    let r1 := propagate_src s c.1 c.2.1
    let r2 := propagate_dst r1.1 c.2.1 c.1
    (r2.1, r1.2 || r2.2)
  else
    let r1 := propagate_src s c.2.1 c.1
    let r2 := propagate_dst r1.1 c.1 c.2.1
    (r2.1, r1.2 || r2.2)

/-- One full pass of the belt-chain loop over the flattened adjacency. -/
def belt_pass (conns : List BeltConn) (s : ParseState) : ParseState × Bool :=
  conns.foldl (fun acc c =>
    let r := belt_conn_step acc.1 c
    (r.1, acc.2 || r.2)) (s, false)

/-- The while belt_changed loop (the source bounds it by 200
iterations). -/
def belt_loop (conns : List BeltConn) : Nat → ParseState → ParseState
  | 0, s => s
  | fuel + 1, s =>
    let r := belt_pass conns s
    if r.2 then belt_loop conns fuel r.1 else r.1

/-- Number of assigned endpoint fields of one belt. -/
def beltCount (b : PBelt) : Nat := b.src_building.isSome.toNat + b.dst_building.isSome.toNat

/-- Number of assigned endpoint fields over the belt dictionary; the
monotonicity measure of the direction-resolution loops. -/
def assignedCount (s : ParseState) : Nat :=
  (s.belts.map (fun p => beltCount p.2)).sum

/-- The monotonicity relation of the direction-resolution loops: every
belt endpoint already assigned in t keeps the same value in t'. -/
def MonoStep (t t' : ParseState) : Prop :=
  ∀ bid v,
    ((getBelt t bid).src_building = some v → (getBelt t' bid).src_building = some v)
    ∧ ((getBelt t bid).dst_building = some v → (getBelt t' bid).dst_building = some v)

/-- A small parse state exercising both loops: one pipe touching a
building, and a two-belt chain. -/
def wC8 : ParseState :=
  { belts := [("p1", ⟨some "X", none, true⟩), ("b1", ⟨some "X", none, false⟩),
      ("b2", ⟨none, none, false⟩)],
    buildings := [("B", ⟨[], []⟩)] }

def wC8p : List PipeConn := [("p1", "B", true)]

def wC8b : List BeltConn := [("b1", "b2", true)]

/-- The static fields of an edge (everything except flow_rate). -/
def edgeShape (e : FlowEdge) : String × String × ℚ × Bool := (e.src, e.dst, e.max_rate, e.is_pipe)

/-- The static fields of a node (everything except available_input and
available_output). -/
def nodeShape (n : FlowNode) :
    String × String × Bool × ℚ × Bool × List (String × ℚ) × List (String × ℚ)
      × List String × List String :=
  (n.building_name, n.category, n.has_recipe, n.clock_speed, n.is_producing,
   n.expected_inputs, n.expected_outputs, n.in_edges, n.out_edges)

/-- The C1 per-conduit invariant together with the static max_rate sign
it needs: 0 ≤ flow_rate ≤ max_rate. -/
def edgeInv (e : FlowEdge) : Prop :=
  0 ≤ e.flow_rate ∧ e.flow_rate ≤ e.max_rate ∧ 0 ≤ e.max_rate

/-- The node-side facts the C1 invariant needs carried along: the
available_output every damped rewrite reads is nonnegative, and the
static clock and recipe output rates are nonnegative. -/
def nodeInv (n : FlowNode) : Prop :=
  0 ≤ n.available_output ∧ 0 ≤ n.clock_speed ∧ 0 ≤ ratesSum n.expected_outputs

/-- The C1 invariant over a whole graph. -/
def graphInv (g : FlowGraph) : Prop :=
  (∀ p ∈ g.edges, edgeInv p.2) ∧ (∀ p ∈ g.nodes, nodeInv p.2)

/-! ### Concrete graphs for witnesses and counterexamples -/

/-- Witness graph for C7: a starved machine S whose dominator D feeds it
through a belt at full capacity. -/
def wC7 : FlowGraph :=
  { nodes := [("S", ⟨"Smelter", "production", true, 1, true,
                [("Iron Ore", 60)], [("Iron Ingot", 20)], 30, 0, ["eDS"], []⟩),
              ("D", ⟨"Conveyor Merger", "logistics", false, 1, false,
                [], [], 30, 30, [], ["eDS"]⟩)],
    edges := [("eDS", ⟨"D", "S", 30, false, 30⟩)] }

/-- The dominator map used by the C7 witness. -/
def wC7idom : String → Option String := fun s => if s = "S" then some "D" else none


/-- Witness graph for C6: one belt at 96 percent capacity, one idle. -/
def wC6 : FlowGraph :=
  { nodes := [],
    edges := [("e1", ⟨"X", "Y", 100, false, 96⟩),
              ("e2", ⟨"X", "Z", 100, false, 10⟩)] }

/-- Counterexample graph for C5: a production node with recipe demanding
10/min and no incoming conduit at all. -/
def cexC5 : FlowGraph :=
  { nodes := [("P", ⟨"Smelter", "production", true, 1, true,
                [("Iron Ore", 10)], [("Iron Ingot", 10)], 0, 0, [], []⟩)],
    edges := [] }

/-- Witness graph for C5 (amended): a production node whose recipe
demands 10/min over a single incoming belt of capacity 5/min. -/
def wC5 : FlowGraph :=
  { nodes := [("P", ⟨"Smelter", "production", true, 1, true,
                [("Iron Ore", 10)], [("Iron Ingot", 10)], 0, 0, ["e1"], []⟩)],
    edges := [("e1", ⟨"X", "P", 5, false, 0⟩)] }


/-- Witness graph for C10: a merger inside a cycle, with two outgoing
belts; the SCC sweep overrides the merger rule with the damped even
split. -/
def wC10 : FlowGraph :=
  { nodes := [("L", ⟨"Conveyor Merger", "logistics", false, 1, false,
                [], [], 0, 0, ["e1"], ["e2", "e3"]⟩)],
    edges := [("e1", ⟨"X", "L", 100, false, 10⟩),
              ("e2", ⟨"L", "Y", 100, false, 0⟩),
              ("e3", ⟨"L", "Z", 100, false, 0⟩)] }


/-- Witness graph for C2: one smelter short on input. -/
def wC2 : FlowGraph :=
  { nodes := [("P", ⟨"Smelter", "production", true, 1, true,
                [("Iron Ore", 30)], [("Iron Ingot", 20)], 0, 0, ["e1"], []⟩)],
    edges := [("e1", ⟨"X", "P", 100, false, 15⟩)] }

/-- Witness graph for C3: a storage container splitting to two belts, one
of them slow. -/
def wC3 : FlowGraph :=
  { nodes := [("S", ⟨"Storage Container", "storage", false, 1, false,
                [], [], 0, 0, ["e1"], ["e2", "e3"]⟩)],
    edges := [("e1", ⟨"X", "S", 100, false, 9⟩),
              ("e2", ⟨"S", "Y", 2, false, 0⟩),
              ("e3", ⟨"S", "Z", 100, false, 0⟩)] }

/-- Counterexample graph for C3: a producer without matched recipe data,
with incoming flow and an outgoing belt. -/
def cexC3 : FlowGraph :=
  { nodes := [("P", ⟨"Constructor", "production", false, 1, true,
                [], [], 0, 0, ["e1"], ["e2"]⟩)],
    edges := [("e1", ⟨"X", "P", 100, false, 5⟩),
              ("e2", ⟨"P", "Y", 100, false, 0⟩)] }

/-- Counterexample graph for C9: a miner feeding a two-storage cycle.
The stock circulating in the cycle grows by about 32 items/min every
damped sweep, so the fixed-point iteration hits the 100-iteration cap
with the member states still drifting far more than epsilon. -/
def exC9 : FlowGraph :=
  { nodes := [("M", ⟨"Miner Mk.1", "miner", false, 1, false, [], [], 0, 0, [], ["eMA"]⟩),
              ("A", ⟨"Industrial Storage Container", "storage", false, 1, false,
                [], [], 0, 0, ["eMA", "eBA"], ["eAB"]⟩),
              ("B", ⟨"Industrial Storage Container", "storage", false, 1, false,
                [], [], 0, 0, ["eAB"], ["eBA"]⟩)],
    edges := [("eMA", ⟨"M", "A", 1000, false, 0⟩),
              ("eAB", ⟨"A", "B", 100000, false, 0⟩),
              ("eBA", ⟨"B", "A", 100000, false, 0⟩)] }

/-- exC9 after miner initialization and the singleton evaluation of M:
the state fixed_point_scc starts from. -/
def gM : FlowGraph :=
  { nodes := [("M", ⟨"Miner Mk.1", "miner", false, 1, false, [], [], 0, 60, [], ["eMA"]⟩),
              ("A", ⟨"Industrial Storage Container", "storage", false, 1, false,
                [], [], 0, 0, ["eMA", "eBA"], ["eAB"]⟩),
              ("B", ⟨"Industrial Storage Container", "storage", false, 1, false,
                [], [], 0, 0, ["eAB"], ["eBA"]⟩)],
    edges := [("eMA", ⟨"M", "A", 1000, false, 60⟩),
              ("eAB", ⟨"A", "B", 100000, false, 0⟩),
              ("eBA", ⟨"B", "A", 100000, false, 0⟩)] }

/-- The shape of the exC9 state after every full sweep of the cycle SCC:
bp is the total input B saw when it was last evaluated, b the flow
A currently sends to B, d the flow B currently sends back to A. -/
def stateAt (bp b d : ℚ) : FlowGraph :=
  { nodes := [("M", ⟨"Miner Mk.1", "miner", false, 1, false, [], [], 0, 60, [], ["eMA"]⟩),
              ("A", ⟨"Industrial Storage Container", "storage", false, 1, false,
                [], [], 60 + d, b, ["eMA", "eBA"], ["eAB"]⟩),
              ("B", ⟨"Industrial Storage Container", "storage", false, 1, false,
                [], [], bp, d, ["eAB"], ["eBA"]⟩)],
    edges := [("eMA", ⟨"M", "A", 1000, false, 60⟩),
              ("eAB", ⟨"A", "B", 100000, false, b⟩),
              ("eBA", ⟨"B", "A", 100000, false, d⟩)] }

/-- The exC9 state in the middle of a sweep, after B's member step and
before A's: dOld is the eBA flow A saw at its previous evaluation. -/
def stateMid (dOld b d2 : ℚ) : FlowGraph :=
  { nodes := [("M", ⟨"Miner Mk.1", "miner", false, 1, false, [], [], 0, 60, [], ["eMA"]⟩),
              ("A", ⟨"Industrial Storage Container", "storage", false, 1, false,
                [], [], 60 + dOld, b, ["eMA", "eBA"], ["eAB"]⟩),
              ("B", ⟨"Industrial Storage Container", "storage", false, 1, false,
                [], [], b, d2, ["eAB"], ["eBA"]⟩)],
    edges := [("eMA", ⟨"M", "A", 1000, false, 60⟩),
              ("eAB", ⟨"A", "B", 100000, false, b⟩),
              ("eBA", ⟨"B", "A", 100000, false, d2⟩)] }

end SatOpt

namespace SatOpt

/-! ### Association-list and graph-update lemmas -/

theorem updA_cons {α : Type} (p : String × α) (t : List (String × α)) (k : String) (f : α → α) :
    updA (p :: t) k f = (p.1, if p.1 = k then f p.2 else p.2) :: updA t k f := rfl

theorem keysA_updA {α : Type} (l : List (String × α)) (k : String) (f : α → α) :
    keysA (updA l k f) = keysA l := by
  induction l with
  | nil => rfl
  | cons p t ih =>
    simp only [updA_cons, keysA, List.map] at ih ⊢
    exact congrArg (List.cons p.1) ih

theorem hasKey_updA {α : Type} (l : List (String × α)) (k k' : String) (f : α → α) :
    hasKey (updA l k f) k' = hasKey l k' := by
  induction l with
  | nil => rfl
  | cons p t ih =>
    simp only [updA_cons, hasKey]
    exact if_congr Iff.rfl rfl ih

theorem findA_updA_self {α : Type} (l : List (String × α)) (k : String) (f : α → α) (d : α)
    (h : hasKey l k = true) : findA (updA l k f) k d = f (findA l k d) := by
  induction l with
  | nil => simp [hasKey] at h
  | cons p t ih =>
    by_cases hp : p.1 = k
    · simp [updA_cons, findA, hp]
    · simp only [hasKey, if_neg hp] at h
      simp only [updA_cons, findA, if_neg hp]
      exact ih h

theorem findA_updA_ne {α : Type} (l : List (String × α)) (k k' : String) (f : α → α) (d : α)
    (h : k' ≠ k) : findA (updA l k f) k' d = findA l k' d := by
  induction l with
  | nil => rfl
  | cons p t ih =>
    by_cases hp' : p.1 = k'
    · have hpk : p.1 ≠ k := by rw [hp']; exact h
      simp only [updA_cons, findA, if_pos hp', if_neg hpk]
    · simp only [updA_cons, findA, if_neg hp']
      exact ih

/-- nodes are untouched by updEdge. -/
theorem nodes_updEdge (g : FlowGraph) (eid : String) (f : FlowEdge → FlowEdge) :
    (updEdge g eid f).nodes = g.nodes := rfl

theorem edges_updNode (g : FlowGraph) (nid : String) (f : FlowNode → FlowNode) :
    (updNode g nid f).edges = g.edges := rfl

theorem getNode_updNode_self (g : FlowGraph) (nid : String) (f : FlowNode → FlowNode)
    (h : hasKey g.nodes nid = true) : getNode (updNode g nid f) nid = f (getNode g nid) :=
  findA_updA_self _ _ _ _ h

theorem getNode_updNode_ne (g : FlowGraph) (nid nid' : String) (f : FlowNode → FlowNode)
    (h : nid' ≠ nid) : getNode (updNode g nid f) nid' = getNode g nid' :=
  findA_updA_ne _ _ _ _ _ h

theorem getEdge_updEdge_self (g : FlowGraph) (eid : String) (f : FlowEdge → FlowEdge)
    (h : hasKey g.edges eid = true) : getEdge (updEdge g eid f) eid = f (getEdge g eid) :=
  findA_updA_self _ _ _ _ h

theorem getEdge_updEdge_ne (g : FlowGraph) (eid eid' : String) (f : FlowEdge → FlowEdge)
    (h : eid' ≠ eid) : getEdge (updEdge g eid f) eid' = getEdge g eid' :=
  findA_updA_ne _ _ _ _ _ h

theorem setOutFlows_nil (g : FlowGraph) (v : ℚ) : setOutFlows g [] v = g := rfl

theorem setOutFlows_cons (g : FlowGraph) (e : String) (t : List String) (v : ℚ) :
    setOutFlows g (e :: t) v =
      setOutFlows (updEdge g e (fun ed => { ed with flow_rate := min v ed.max_rate })) t v := rfl

/-- setOutFlows only touches edges. -/
theorem nodes_setOutFlows (g : FlowGraph) (outs : List String) (v : ℚ) :
    (setOutFlows g outs v).nodes = g.nodes := by
  induction outs generalizing g with
  | nil => rfl
  | cons e t ih => rw [setOutFlows_cons, ih, nodes_updEdge]

theorem getNode_setOutFlows (g : FlowGraph) (outs : List String) (v : ℚ) (nid : String) :
    getNode (setOutFlows g outs v) nid = getNode g nid := by
  unfold getNode; rw [nodes_setOutFlows]

theorem hasKey_edges_updEdge (g : FlowGraph) (eid : String) (f : FlowEdge → FlowEdge)
    (k : String) : hasKey (updEdge g eid f).edges k = hasKey g.edges k :=
  hasKey_updA _ _ _ _

theorem hasKey_edges_setOutFlows (g : FlowGraph) (outs : List String) (v : ℚ) (k : String) :
    hasKey (setOutFlows g outs v).edges k = hasKey g.edges k := by
  induction outs generalizing g with
  | nil => rfl
  | cons e t ih => rw [setOutFlows_cons, ih, hasKey_edges_updEdge]

/-- Edges outside the write list are untouched by setOutFlows. -/
theorem getEdge_setOutFlows_notMem (g : FlowGraph) (outs : List String) (v : ℚ) (eid : String)
    (h : eid ∉ outs) : getEdge (setOutFlows g outs v) eid = getEdge g eid := by
  induction outs generalizing g with
  | nil => rfl
  | cons e t ih =>
    rw [setOutFlows_cons, ih _ (fun hm => h (List.mem_cons_of_mem _ hm)),
      getEdge_updEdge_ne _ _ _ _ (fun he => h (by rw [he]; exact List.mem_cons_self e t))]

/-- Edges in the write list end with flow_rate = min v max_rate and the
other fields unchanged. -/
theorem getEdge_setOutFlows_mem (g : FlowGraph) (outs : List String) (v : ℚ) (eid : String)
    (hmem : eid ∈ outs) (hk : hasKey g.edges eid = true) :
    getEdge (setOutFlows g outs v) eid =
      { getEdge g eid with flow_rate := min v (getEdge g eid).max_rate } := by
  induction outs generalizing g with
  | nil => cases hmem
  | cons e t ih =>
    rw [setOutFlows_cons]
    by_cases ht : eid ∈ t
    · rw [ih _ ht (by rw [hasKey_edges_updEdge]; exact hk)]
      by_cases he : eid = e
      · subst he; rw [getEdge_updEdge_self _ _ _ hk]
      · rw [getEdge_updEdge_ne _ _ _ _ he]
    · have he : eid = e := by
        rcases List.mem_cons.mp hmem with h | h
        · exact h
        · exact absurd h ht
      subst he
      rw [getEdge_setOutFlows_notMem _ _ _ _ ht, getEdge_updEdge_self _ _ _ hk]

end SatOpt

namespace SatOpt

/-! ### C2 and C3: singleton node evaluation -/

/-- Evaluation of a production or generator node with recipe data:
closed form of the node record after _calculate_node_flow. -/
theorem cnf_prodgen_getNode (g : FlowGraph) (nid : String)
    (hk : hasKey g.nodes nid = true)
    (hcat : (getNode g nid).category = "production" ∨ (getNode g nid).category = "generator")
    (hrec : (getNode g nid).has_recipe = true) :
    getNode (calculate_node_flow nid g) nid =
      { getNode g nid with
          available_input := totalIn g (getNode g nid),
          available_output := ratesSum (getNode g nid).expected_outputs *
            (if 0 < ratesSum (getNode g nid).expected_inputs
             then min (totalIn g (getNode g nid) / ratesSum (getNode g nid).expected_inputs) 1
             else 1) } := by
  have hk1 : hasKey (updNode g nid
      (fun n => { n with available_input := totalIn g (getNode g nid) })).nodes nid = true := by
    simpa [updNode, hasKey_updA] using hk
  have hm : ¬((getNode g nid).category = "miner") := by
    rcases hcat with h | h <;> rw [h] <;> decide
  have hl : ¬((getNode g nid).category = "logistics") := by
    rcases hcat with h | h <;> rw [h] <;> decide
  have hp : ((getNode g nid).category = "production" ∨ (getNode g nid).category = "generator")
      ∧ (getNode g nid).has_recipe = true := ⟨hcat, hrec⟩
  simp only [calculate_node_flow]
  rw [if_neg hm, if_neg hl, if_pos hp]
  by_cases hoe : (getNode g nid).out_edges.isEmpty
  · rw [if_pos hoe, getNode_updNode_self _ _ _ hk1, getNode_updNode_self _ _ _ hk]
  · rw [if_neg hoe, getNode_setOutFlows, getNode_updNode_self _ _ _ hk1,
      getNode_updNode_self _ _ _ hk]

/-- C2: after the singleton evaluation of a production or generator node
with matched recipe data, available_output equals the sum of expected
outputs times min(available_input / sum of expected inputs, 1) when the
total expected input is positive, and equals the full sum of expected
outputs (sufficiency 1) when the total expected input is zero. -/
theorem C2_producer_sufficiency (g : FlowGraph) (nid : String)
    (hk : hasKey g.nodes nid = true)
    (hcat : (getNode g nid).category = "production" ∨ (getNode g nid).category = "generator")
    (hrec : (getNode g nid).has_recipe = true) :
    (0 < ratesSum (getNode g nid).expected_inputs →
      (getNode (calculate_node_flow nid g) nid).available_output
        = ratesSum (getNode g nid).expected_outputs
          * min ((getNode (calculate_node_flow nid g) nid).available_input
              / ratesSum (getNode g nid).expected_inputs) 1)
    ∧ (ratesSum (getNode g nid).expected_inputs = 0 →
      (getNode (calculate_node_flow nid g) nid).available_output
        = ratesSum (getNode g nid).expected_outputs) := by
  rw [cnf_prodgen_getNode g nid hk hcat hrec]
  constructor
  · intro hpos
    simp only [if_pos hpos]
  · intro hzero
    rw [hzero]
    norm_num

theorem C2_witness :
    hasKey wC2.nodes "P" = true
    ∧ (getNode wC2 "P").category = "production"
    ∧ (getNode wC2 "P").has_recipe = true
    ∧ (0 < ratesSum (getNode wC2 "P").expected_inputs →
        (getNode (calculate_node_flow "P" wC2) "P").available_output
          = ratesSum (getNode wC2 "P").expected_outputs
            * min ((getNode (calculate_node_flow "P" wC2) "P").available_input
                / ratesSum (getNode wC2 "P").expected_inputs) 1) :=
  ⟨by decide, by decide, by decide,
    (C2_producer_sufficiency wC2 "P" (by decide) (Or.inl (by decide)) (by decide)).1⟩

end SatOpt

namespace SatOpt

/-- Evaluation of a storage or transport node: closed form of the node
record after _calculate_node_flow. -/
theorem cnf_storage_getNode (g : FlowGraph) (nid : String)
    (hk : hasKey g.nodes nid = true)
    (hcat : (getNode g nid).category = "storage" ∨ (getNode g nid).category = "transport") :
    getNode (calculate_node_flow nid g) nid =
      { getNode g nid with
          available_input := totalIn g (getNode g nid),
          available_output := totalIn g (getNode g nid) } := by
  have hk1 : hasKey (updNode g nid
      (fun n => { n with available_input := totalIn g (getNode g nid) })).nodes nid = true := by
    simpa [updNode, hasKey_updA] using hk
  have hm : ¬((getNode g nid).category = "miner") := by
    rcases hcat with h | h <;> rw [h] <;> decide
  have hl : ¬((getNode g nid).category = "logistics") := by
    rcases hcat with h | h <;> rw [h] <;> decide
  have hpg : ¬(((getNode g nid).category = "production" ∨ (getNode g nid).category = "generator")
      ∧ (getNode g nid).has_recipe = true) := by
    rintro ⟨hc, -⟩
    rcases hcat with h | h <;> rcases hc with h' | h' <;> rw [h] at h' <;> exact absurd h' (by decide)
  simp only [calculate_node_flow]
  rw [if_neg hm, if_neg hl, if_neg hpg, if_pos hcat]
  by_cases hoe : (getNode g nid).out_edges.isEmpty
  · rw [if_pos hoe, getNode_updNode_self _ _ _ hk1, getNode_updNode_self _ _ _ hk]
  · rw [if_neg hoe, getNode_setOutFlows, getNode_updNode_self _ _ _ hk1,
      getNode_updNode_self _ _ _ hk]

/-- Evaluation of a storage or transport node: each outgoing edge is
written with the capped even split. -/
theorem cnf_storage_getEdge (g : FlowGraph) (nid : String)
    (hk : hasKey g.nodes nid = true)
    (hcat : (getNode g nid).category = "storage" ∨ (getNode g nid).category = "transport")
    (eid : String) (hmem : eid ∈ (getNode g nid).out_edges)
    (hke : hasKey g.edges eid = true) :
    getEdge (calculate_node_flow nid g) eid =
      { getEdge g eid with
          flow_rate := min (totalIn g (getNode g nid)
              / (((max (getNode g nid).out_edges.length 1 : ℕ) : ℚ)))
            (getEdge g eid).max_rate } := by
  have hm : ¬((getNode g nid).category = "miner") := by
    rcases hcat with h | h <;> rw [h] <;> decide
  have hl : ¬((getNode g nid).category = "logistics") := by
    rcases hcat with h | h <;> rw [h] <;> decide
  have hpg : ¬(((getNode g nid).category = "production" ∨ (getNode g nid).category = "generator")
      ∧ (getNode g nid).has_recipe = true) := by
    rintro ⟨hc, -⟩
    rcases hcat with h | h <;> rcases hc with h' | h' <;> rw [h] at h' <;> exact absurd h' (by decide)
  have hoe : ¬((getNode g nid).out_edges.isEmpty = true) := by
    cases hout : (getNode g nid).out_edges with
    | nil => rw [hout] at hmem; cases hmem
    | cons a t => simp [hout, List.isEmpty]
  simp only [calculate_node_flow]
  rw [if_neg hm, if_neg hl, if_neg hpg, if_pos hcat, if_neg hoe]
  rw [getEdge_setOutFlows_mem _ _ _ _ hmem (by simpa [updNode, hasKey_updA] using hke)]
  rfl

/-- Evaluation of a production node without matched recipe data: only
available_input is written; available_output and the edges stay. -/
theorem cnf_norecipe (g : FlowGraph) (nid : String)
    (hk : hasKey g.nodes nid = true)
    (hcat : (getNode g nid).category = "production")
    (hrec : (getNode g nid).has_recipe = false) :
    getNode (calculate_node_flow nid g) nid =
      { getNode g nid with available_input := totalIn g (getNode g nid) }
    ∧ (calculate_node_flow nid g).edges = g.edges := by
  have hm : ¬((getNode g nid).category = "miner") := by rw [hcat]; decide
  have hl : ¬((getNode g nid).category = "logistics") := by rw [hcat]; decide
  have hpg : ¬(((getNode g nid).category = "production" ∨ (getNode g nid).category = "generator")
      ∧ (getNode g nid).has_recipe = true) := by
    rintro ⟨-, hr⟩; rw [hrec] at hr; cases hr
  have hst : ¬((getNode g nid).category = "storage" ∨ (getNode g nid).category = "transport") := by
    rintro (h | h) <;> rw [hcat] at h <;> exact absurd h (by decide)
  simp only [calculate_node_flow]
  rw [if_neg hm, if_neg hl, if_neg hpg, if_neg hst]
  exact ⟨getNode_updNode_self _ _ _ hk, rfl⟩

/-- C3 counterexample: on cexC3 (a producer without matched recipe, with
5 items/min arriving and an outgoing belt) the evaluation does not set
available_output = available_input: the available_input becomes 5 but
available_output stays 0. -/
theorem C3_counterexample :
    ¬ ((getNode (calculate_node_flow "P" cexC3) "P").available_output
        = (getNode (calculate_node_flow "P" cexC3) "P").available_input) := by
  norm_num +decide [calculate_node_flow, totalIn, ratesSum, setOutFlows, updNode, updEdge,
    getNode, getEdge, findA, hasKey, updA, keysA, cexC3, List.foldl, List.isEmpty,
    List.map, List.sum]

/-- C3 (amended): a singleton storage or transport node passes through
(available_output = available_input = total incoming flow, outgoing
edges get the capped even split); a production node without matched
recipe data only gets available_input recomputed, while its
available_output and every edge are left unchanged. -/
theorem C3_passthrough_amended (g : FlowGraph) (nid : String)
    (hk : hasKey g.nodes nid = true) :
    ((getNode g nid).category = "storage" ∨ (getNode g nid).category = "transport" →
      (getNode (calculate_node_flow nid g) nid).available_output
          = totalIn g (getNode g nid)
        ∧ (getNode (calculate_node_flow nid g) nid).available_input
          = totalIn g (getNode g nid)
        ∧ ∀ eid ∈ (getNode g nid).out_edges, hasKey g.edges eid = true →
            (getEdge (calculate_node_flow nid g) eid).flow_rate
              = min (totalIn g (getNode g nid) / (((getNode g nid).out_edges.length : ℕ) : ℚ))
                  (getEdge g eid).max_rate)
    ∧ ((getNode g nid).category = "production" → (getNode g nid).has_recipe = false →
      (getNode (calculate_node_flow nid g) nid).available_input = totalIn g (getNode g nid)
        ∧ (getNode (calculate_node_flow nid g) nid).available_output
          = (getNode g nid).available_output
        ∧ (calculate_node_flow nid g).edges = g.edges) := by
  constructor
  · intro hcat
    refine ⟨by rw [cnf_storage_getNode g nid hk hcat], by rw [cnf_storage_getNode g nid hk hcat],
      fun eid hmem hke => ?_⟩
    rw [cnf_storage_getEdge g nid hk hcat eid hmem hke]
    have hlen : max (getNode g nid).out_edges.length 1 = (getNode g nid).out_edges.length :=
      Nat.max_eq_left (List.length_pos.mpr (List.ne_nil_of_mem hmem))
    rw [hlen]
  · intro hcat hrec
    obtain ⟨hn, he⟩ := cnf_norecipe g nid hk hcat hrec
    exact ⟨by rw [hn], by rw [hn], he⟩

theorem C3_witness :
    hasKey wC3.nodes "S" = true
    ∧ ((getNode (calculate_node_flow "S" wC3) "S").available_output
          = totalIn wC3 (getNode wC3 "S")
        ∧ (getNode (calculate_node_flow "S" wC3) "S").available_input
          = totalIn wC3 (getNode wC3 "S")
        ∧ ∀ eid ∈ (getNode wC3 "S").out_edges, hasKey wC3.edges eid = true →
            (getEdge (calculate_node_flow "S" wC3) eid).flow_rate
              = min (totalIn wC3 (getNode wC3 "S") / (((getNode wC3 "S").out_edges.length : ℕ) : ℚ))
                  (getEdge wC3 eid).max_rate) :=
  ⟨by decide, (C3_passthrough_amended wC3 "S" (by decide)).1 (Or.inl (by decide))⟩

end SatOpt

namespace SatOpt

/-! ### Shape preservation: flow propagation never edits static fields -/

theorem findA_updA_proj {α β : Type} (proj : α → β) (l : List (String × α)) (k k' : String)
    (f : α → α) (d : α) (hf : ∀ x, proj (f x) = proj x) :
    proj (findA (updA l k f) k' d) = proj (findA l k' d) := by
  induction l with
  | nil => rfl
  | cons p t ih =>
    by_cases hp' : p.1 = k'
    · simp only [updA_cons, findA, if_pos hp']
      split
      · exact hf p.2
      · rfl
    · simp only [updA_cons, findA, if_neg hp']
      exact ih

theorem edgeShape_updEdge (g : FlowGraph) (eid : String) (f : FlowEdge → FlowEdge)
    (hf : ∀ x, edgeShape (f x) = edgeShape x) (eid' : String) :
    edgeShape (getEdge (updEdge g eid f) eid') = edgeShape (getEdge g eid') :=
  findA_updA_proj edgeShape _ _ _ _ _ hf

theorem nodeShape_updNode (g : FlowGraph) (nid : String) (f : FlowNode → FlowNode)
    (hf : ∀ x, nodeShape (f x) = nodeShape x) (nid' : String) :
    nodeShape (getNode (updNode g nid f) nid') = nodeShape (getNode g nid') :=
  findA_updA_proj nodeShape _ _ _ _ _ hf

theorem edgeShape_setOutFlows (g : FlowGraph) (outs : List String) (v : ℚ) (eid : String) :
    edgeShape (getEdge (setOutFlows g outs v) eid) = edgeShape (getEdge g eid) := by
  induction outs generalizing g with
  | nil => rfl
  | cons e t ih =>
    rw [setOutFlows_cons, ih]
    apply edgeShape_updEdge
    intro x; rfl

theorem getEdge_updNode (g : FlowGraph) (nid : String) (f : FlowNode → FlowNode)
    (e : String) : getEdge (updNode g nid f) e = getEdge g e := rfl

theorem nodeShape_updNode_ai (g : FlowGraph) (nid : String) (v : ℚ) (n' : String) :
    nodeShape (getNode (updNode g nid (fun n => { n with available_input := v })) n')
      = nodeShape (getNode g n') := by
  apply nodeShape_updNode
  intro x; rfl

theorem nodeShape_updNode_ao (g : FlowGraph) (nid : String) (v : ℚ) (n' : String) :
    nodeShape (getNode (updNode g nid (fun n => { n with available_output := v })) n')
      = nodeShape (getNode g n') := by
  apply nodeShape_updNode
  intro x; rfl

theorem edgeShape_calculate_node_flow (g : FlowGraph) (nid : String) (eid : String) :
    edgeShape (getEdge (calculate_node_flow nid g) eid) = edgeShape (getEdge g eid) := by
  simp only [calculate_node_flow]
  repeat' split
  all_goals simp only [edgeShape_setOutFlows, getEdge_updNode]

theorem nodeShape_calculate_node_flow (g : FlowGraph) (nid : String) (n' : String) :
    nodeShape (getNode (calculate_node_flow nid g) n') = nodeShape (getNode g n') := by
  simp only [calculate_node_flow]
  repeat' split
  all_goals simp only [getNode_setOutFlows, nodeShape_updNode_ai, nodeShape_updNode_ao]

end SatOpt

namespace SatOpt

theorem hasKey_edges_updNode (g : FlowGraph) (nid : String) (f : FlowNode → FlowNode)
    (k : String) : hasKey (updNode g nid f).edges k = hasKey g.edges k := rfl

theorem hasKey_edges_calculate_node_flow (g : FlowGraph) (nid : String) (k : String) :
    hasKey (calculate_node_flow nid g).edges k = hasKey g.edges k := by
  simp only [calculate_node_flow]
  repeat' split
  all_goals simp only [hasKey_edges_setOutFlows, hasKey_edges_updNode]

theorem out_edges_of_nodeShape {a b : FlowNode} (h : nodeShape a = nodeShape b) :
    a.out_edges = b.out_edges := by
  have := congrArg (fun t => t.2.2.2.2.2.2.2.2) h
  simpa [nodeShape] using this

theorem max_rate_of_edgeShape {a b : FlowEdge} (h : edgeShape a = edgeShape b) :
    a.max_rate = b.max_rate := by
  have := congrArg (fun t => t.2.2.1) h
  simpa [edgeShape] using this

/-- C10: one member step of the _fixed_point_scc sweep rewrites each of
the member's outgoing conduits to the damped output split evenly over
all outgoing conduits and capped at that conduit's max_rate, whatever
the node's category or logistics sub-kind (the damped value blends the
re-evaluated output with the old one at factor 0.7), and reports the
absolute damped delta. -/
theorem C10_scc_damped_even_split (g : FlowGraph) (nid : String) (eid : String)
    (hmem : eid ∈ (getNode g nid).out_edges)
    (hke : hasKey g.edges eid = true) :
    (getEdge (scc_process_node g nid).1 eid).flow_rate
      = min (((7/10 : ℚ) * (getNode (calculate_node_flow nid g) nid).available_output
            + (1 - 7/10) * (getNode g nid).available_output)
          / (((getNode g nid).out_edges.length : ℕ) : ℚ))
        ((getEdge g eid).max_rate)
    ∧ (scc_process_node g nid).2
      = |((7/10 : ℚ) * (getNode (calculate_node_flow nid g) nid).available_output
            + (1 - 7/10) * (getNode g nid).available_output)
          - (getNode g nid).available_output| := by
  have hsh2 : nodeShape (getNode (updNode (calculate_node_flow nid g) nid
      (fun n => { n with available_output :=
        (7/10 : ℚ) * (getNode (calculate_node_flow nid g) nid).available_output
          + (1 - 7/10) * (getNode g nid).available_output })) nid)
      = nodeShape (getNode g nid) := by
    rw [nodeShape_updNode_ao, nodeShape_calculate_node_flow]
  have hout2 := out_edges_of_nodeShape hsh2
  have hoe : ¬((getNode (updNode (calculate_node_flow nid g) nid
      (fun n => { n with available_output :=
        (7/10 : ℚ) * (getNode (calculate_node_flow nid g) nid).available_output
          + (1 - 7/10) * (getNode g nid).available_output })) nid).out_edges.isEmpty = true) := by
    rw [hout2]
    cases hout : (getNode g nid).out_edges with
    | nil => rw [hout] at hmem; cases hmem
    | cons a t => simp [List.isEmpty]
  have hke2 : hasKey (updNode (calculate_node_flow nid g) nid
      (fun n => { n with available_output :=
        (7/10 : ℚ) * (getNode (calculate_node_flow nid g) nid).available_output
          + (1 - 7/10) * (getNode g nid).available_output })).edges eid = true := by
    rw [hasKey_edges_updNode, hasKey_edges_calculate_node_flow]; exact hke
  have hsh3 : edgeShape (getEdge (updNode (calculate_node_flow nid g) nid
      (fun n => { n with available_output :=
        (7/10 : ℚ) * (getNode (calculate_node_flow nid g) nid).available_output
          + (1 - 7/10) * (getNode g nid).available_output })) eid)
      = edgeShape (getEdge g eid) := by
    rw [getEdge_updNode, edgeShape_calculate_node_flow]
  simp only [scc_process_node]
  rw [if_neg hoe]
  constructor
  · rw [getEdge_setOutFlows_mem _ _ _ _ (by rw [hout2]; exact hmem) hke2]
    rw [max_rate_of_edgeShape hsh3, hout2]
  · trivial

theorem C10_witness :
    "e2" ∈ (getNode wC10 "L").out_edges
    ∧ hasKey wC10.edges "e2" = true
    ∧ (getEdge (scc_process_node wC10 "L").1 "e2").flow_rate
      = min (((7/10 : ℚ) * (getNode (calculate_node_flow "L" wC10) "L").available_output
            + (1 - 7/10) * (getNode wC10 "L").available_output)
          / (((getNode wC10 "L").out_edges.length : ℕ) : ℚ))
        ((getEdge wC10 "e2").max_rate) :=
  ⟨by decide, by decide,
    (C10_scc_damped_even_split wC10 "L" "e2" (by decide) (by decide)).1⟩

end SatOpt

namespace SatOpt

/-- Membership in a conditional-append fold (the shape of the issue
rule loops). -/
theorem mem_foldl_append {α β : Type} (l : List α) (p : α → Prop) [DecidablePred p]
    (f : α → β) (acc : List β) (x : β) :
    (x ∈ l.foldl (fun acc a => if p a then acc ++ [f a] else acc) acc
      ↔ x ∈ acc ∨ ∃ a ∈ l, p a ∧ x = f a) := by
  induction l generalizing acc with
  | nil => simp
  | cons a t ih =>
    simp only [List.foldl]
    by_cases hpa : p a
    · rw [if_pos hpa, ih]
      constructor
      · rintro (hx | ⟨b, hb, hpb, rfl⟩)
        · rcases List.mem_append.mp hx with h | h
          · exact Or.inl h
          · exact Or.inr ⟨a, List.mem_cons_self a t, hpa, List.mem_singleton.mp h⟩
        · exact Or.inr ⟨b, List.mem_cons_of_mem _ hb, hpb, rfl⟩
      · rintro (hx | ⟨b, hb, hpb, rfl⟩)
        · exact Or.inl (List.mem_append.mpr (Or.inl hx))
        · rcases List.mem_cons.mp hb with rfl | hb
          · exact Or.inl (List.mem_append.mpr (Or.inr (List.mem_singleton.mpr rfl)))
          · exact Or.inr ⟨b, hb, hpb, rfl⟩
    · rw [if_neg hpa, ih]
      constructor
      · rintro (hx | ⟨b, hb, hpb, rfl⟩)
        · exact Or.inl hx
        · exact Or.inr ⟨b, List.mem_cons_of_mem _ hb, hpb, rfl⟩
      · rintro (hx | ⟨b, hb, hpb, rfl⟩)
        · exact Or.inl hx
        · rcases List.mem_cons.mp hb with rfl | hb
          · exact absurd hpb hpa
          · exact Or.inr ⟨b, hb, hpb, rfl⟩

/-- C6: a Belt Bottleneck issue is emitted for a conduit exactly when
flow_rate is at least 95 percent of max_rate and positive, with severity
error when flow_rate exceeds max_rate and warning otherwise; hence every
emitted Belt Bottleneck conduit is at 95 percent of capacity or more. -/
theorem C6_belt_bottleneck (g : FlowGraph) (eid sev : String) :
    ((eid, sev) ∈ belt_bottleneck_issues g ↔
      ∃ e : FlowEdge, (eid, e) ∈ g.edges
        ∧ e.max_rate * (95/100) ≤ e.flow_rate ∧ 0 < e.flow_rate
        ∧ sev = (if e.max_rate < e.flow_rate then "error" else "warning"))
    ∧ (∀ q ∈ belt_bottleneck_issues g,
        ∃ e : FlowEdge, (q.1, e) ∈ g.edges ∧ e.max_rate * (95/100) ≤ e.flow_rate) := by
  have hchar : ∀ x : String × String,
      (x ∈ belt_bottleneck_issues g ↔
        ∃ a : String × FlowEdge, a ∈ g.edges
          ∧ (a.2.max_rate * (95/100) ≤ a.2.flow_rate ∧ 0 < a.2.flow_rate)
          ∧ x = (a.1, if a.2.max_rate < a.2.flow_rate then "error" else "warning")) := by
    intro x
    have h := mem_foldl_append g.edges
      (fun pe => pe.2.max_rate * (95/100) ≤ pe.2.flow_rate ∧ 0 < pe.2.flow_rate)
      (fun pe => (pe.1, if pe.2.max_rate < pe.2.flow_rate then "error" else "warning"))
      [] x
    simpa [belt_bottleneck_issues] using h
  constructor
  · rw [hchar (eid, sev)]
    constructor
    · rintro ⟨a, ha, ⟨h1, h2⟩, hx⟩
      obtain ⟨rfl, rfl⟩ := Prod.mk.injEq .. ▸ Prod.ext_iff.mp hx
      exact ⟨a.2, ha, h1, h2, rfl⟩
    · rintro ⟨e, he, h1, h2, rfl⟩
      exact ⟨(eid, e), he, ⟨h1, h2⟩, rfl⟩
  · intro q hq
    obtain ⟨a, ha, ⟨h1, h2⟩, hx⟩ := (hchar q).mp hq
    exact ⟨a.2, by rw [hx]; exact ha, h1⟩

theorem C6_witness :
    ("e1", "warning") ∈ belt_bottleneck_issues wC6
    ∧ ("e2", "warning") ∉ belt_bottleneck_issues wC6 := by
  constructor
  · exact (C6_belt_bottleneck wC6 "e1" "warning").1.mpr
      ⟨⟨"X", "Y", 100, false, 96⟩, by norm_num [wC6], by norm_num, by norm_num, by norm_num⟩
  · intro hq
    obtain ⟨e, he, h1, h2, hs⟩ := (C6_belt_bottleneck wC6 "e2" "warning").1.mp hq
    have : e = ⟨"X", "Z", 100, false, 10⟩ := by
      simp only [wC6, List.mem_cons, List.not_mem_nil, or_false, Prod.mk.injEq] at he
      rcases he with ⟨h, -⟩ | ⟨-, h⟩
      · exact absurd h (by decide)
      · exact h
    rw [this] at h1
    norm_num at h1

end SatOpt

namespace SatOpt

/-- The per-node emission condition of the Clock Too High rule as coded
(the fold body of clock_too_high_ids). -/
theorem mem_clock_too_high (g : FlowGraph) (nid : String) :
    (nid ∈ clock_too_high_ids g ↔
      ∃ pn : String × FlowNode, pn ∈ g.nodes ∧
        (¬(pn.2.category ≠ "production" ∨ ¬ pn.2.has_recipe = true)
          ∧ ¬(pn.2.expected_inputs.isEmpty = true ∨ pn.2.in_edges.isEmpty = true)
          ∧ ¬(ratesSum pn.2.expected_inputs ≤ 0)
          ∧ 0 < (pn.2.in_edges.map (fun eid => (getEdge g eid).max_rate)).sum
          ∧ (pn.2.in_edges.map (fun eid => (getEdge g eid).max_rate)).sum * (105/100)
              < ratesSum pn.2.expected_inputs)
        ∧ nid = pn.1) := by
  have h := mem_foldl_append g.nodes
    (fun pn => ¬(pn.2.category ≠ "production" ∨ ¬ pn.2.has_recipe = true)
      ∧ ¬(pn.2.expected_inputs.isEmpty = true ∨ pn.2.in_edges.isEmpty = true)
      ∧ ¬(ratesSum pn.2.expected_inputs ≤ 0)
      ∧ 0 < (pn.2.in_edges.map (fun eid => (getEdge g eid).max_rate)).sum
      ∧ (pn.2.in_edges.map (fun eid => (getEdge g eid).max_rate)).sum * (105/100)
          < ratesSum pn.2.expected_inputs)
    Prod.fst [] nid
  rw [show clock_too_high_ids g = g.nodes.foldl
      (fun acc pn => if (¬(pn.2.category ≠ "production" ∨ ¬ pn.2.has_recipe = true)
        ∧ ¬(pn.2.expected_inputs.isEmpty = true ∨ pn.2.in_edges.isEmpty = true)
        ∧ ¬(ratesSum pn.2.expected_inputs ≤ 0)
        ∧ 0 < (pn.2.in_edges.map (fun eid => (getEdge g eid).max_rate)).sum
        ∧ (pn.2.in_edges.map (fun eid => (getEdge g eid).max_rate)).sum * (105/100)
            < ratesSum pn.2.expected_inputs) then acc ++ [pn.1] else acc) []
    from ?_]
  · simpa using h
  · unfold clock_too_high_ids
    congr 1
    funext acc pn
    by_cases h1 : pn.2.category ≠ "production" ∨ ¬ pn.2.has_recipe = true
    · rw [if_pos h1, if_neg (fun hc => hc.1 h1)]
    · rw [if_neg h1]
      by_cases h2 : pn.2.expected_inputs.isEmpty = true ∨ pn.2.in_edges.isEmpty = true
      · rw [if_pos h2, if_neg (fun hc => hc.2.1 h2)]
      · rw [if_neg h2]
        by_cases h3 : ratesSum pn.2.expected_inputs ≤ 0
        · rw [if_pos h3, if_neg (fun hc => hc.2.2.1 h3)]
        · rw [if_neg h3]
          by_cases h4 : 0 < (pn.2.in_edges.map (fun eid => (getEdge g eid).max_rate)).sum
            ∧ (pn.2.in_edges.map (fun eid => (getEdge g eid).max_rate)).sum * (105/100)
                < ratesSum pn.2.expected_inputs
          · rw [if_pos h4, if_pos (by exact ⟨h1, h2, h3, h4.1, h4.2⟩)]
          · rw [if_neg h4, if_neg (by rintro ⟨-, -, -, ha, hb⟩; exact h4 ⟨ha, hb⟩)]

end SatOpt

namespace SatOpt

/-- A positive rate sum forces a non-empty rate map. -/
theorem ratesSum_pos_ne_nil {l : List (String × ℚ)} (h : 0 < ratesSum l) : l ≠ [] := by
  intro hnil; rw [hnil] at h; simp [ratesSum] at h

/-- C5 (amended): a Clock Too High issue is emitted exactly for the
production nodes with matched recipe data that have at least one
incoming conduit, positive total incoming max_rate capacity, and total
expected input exceeding 1.05 times that capacity; in particular a
producer with no incoming conduits is exempted by the rule as coded. -/
theorem C5_clock_too_high_amended (g : FlowGraph) (nid : String) :
    nid ∈ clock_too_high_ids g ↔
      ∃ node : FlowNode, (nid, node) ∈ g.nodes
        ∧ node.category = "production" ∧ node.has_recipe = true
        ∧ node.in_edges ≠ []
        ∧ 0 < (node.in_edges.map (fun eid => (getEdge g eid).max_rate)).sum
        ∧ (node.in_edges.map (fun eid => (getEdge g eid).max_rate)).sum * (105/100)
            < ratesSum node.expected_inputs := by
  rw [mem_clock_too_high g nid]
  constructor
  · rintro ⟨pn, hmem, ⟨h1, h2, -, h4, h5⟩, rfl⟩
    rcases not_or.mp h1 with ⟨h1a, h1b⟩
    rcases not_or.mp h2 with ⟨-, h2b⟩
    refine ⟨pn.2, hmem, not_not.mp h1a, not_not.mp h1b, ?_, h4, h5⟩
    intro hnil
    rw [hnil] at h2b
    exact h2b rfl
  · rintro ⟨node, hmem, hc, hr, hin, hcap, hlt⟩
    have hts : 0 < ratesSum node.expected_inputs :=
      lt_trans (by positivity) hlt
    refine ⟨(nid, node), hmem, ⟨?_, ?_, not_le.mpr hts, hcap, hlt⟩, rfl⟩
    · rw [not_or, not_not, not_not]; exact ⟨hc, hr⟩
    · rw [not_or]
      constructor
      · simp [List.isEmpty_iff, ratesSum_pos_ne_nil hts]
      · simp [List.isEmpty_iff, hin]

/-- C5 counterexample: cexC5 has a production node with matched recipe
whose expected input (10/min) exceeds 1.05 times the total incoming
capacity (0, since it has no incoming conduits), yet no Clock Too High
issue is emitted for it. -/
theorem C5_counterexample :
    (getNode cexC5 "P").category = "production"
    ∧ (getNode cexC5 "P").has_recipe = true
    ∧ ((getNode cexC5 "P").in_edges.map (fun eid => (getEdge cexC5 eid).max_rate)).sum * (105/100)
        < ratesSum (getNode cexC5 "P").expected_inputs
    ∧ "P" ∉ clock_too_high_ids cexC5 := by
  refine ⟨by decide, by decide, by norm_num [cexC5, getNode, findA, ratesSum], ?_⟩
  rw [C5_clock_too_high_amended]
  rintro ⟨node, hmem, -, -, hin, -, -⟩
  have : node = ⟨"Smelter", "production", true, 1, true,
      [("Iron Ore", 10)], [("Iron Ingot", 10)], 0, 0, [], []⟩ := by
    simp only [cexC5, List.mem_cons, List.not_mem_nil, or_false, Prod.mk.injEq] at hmem
    exact hmem.2
  rw [this] at hin
  exact hin rfl

theorem C5_witness :
    "P" ∈ clock_too_high_ids wC5 :=
  (C5_clock_too_high_amended wC5 "P").mpr
    ⟨⟨"Smelter", "production", true, 1, true,
        [("Iron Ore", 10)], [("Iron Ingot", 10)], 0, 0, ["e1"], []⟩,
      by norm_num [wC5], by decide, by decide, by decide,
      by norm_num [wC5, getEdge, findA], by norm_num [wC5, getEdge, findA, ratesSum]⟩

end SatOpt

namespace SatOpt

/-- Each loop iteration of the dominator walk adds at most one edge and
one node entry to the trace. -/
theorem dom_trace_go_len (g : FlowGraph) (idom : String → Option String) :
    ∀ fuel current visited path,
      ((dom_trace_go g idom fuel current visited path).trace).length
        ≤ path.length + 2 * fuel := by
  intro fuel
  induction fuel with
  | zero => intro c v p; simp [dom_trace_go]
  | succ n ih =>
    intro c v p
    simp only [dom_trace_go]
    repeat' split
    all_goals
      first
      | omega
      | (simp only [List.length_append, List.length_cons, List.length_nil]; omega)
      | (refine le_trans (ih _ _ _) ?_
         simp only [List.length_append, List.length_cons, List.length_nil]
         omega)

/-- C7: the dominator walk of _dominator_trace_starvation takes at most
30 steps (its trace gains at most two entries per step beyond the
starting node); at a step whose connecting conduit from the dominator to
the current node carries at least 99 percent of its max_rate, the walk
returns the verdict Belt Bottleneck (Dominator) recording that dominator
as dominator_id; and when the loop fuel is exhausted without a verdict
the result is root_cause Complex Chain. -/
theorem C7_dominator_trace (g : FlowGraph) (idom : String → Option String) :
    (∀ start, ((dominator_trace_starvation g idom start).trace).length ≤ 1 + 2 * 30)
    ∧ (∀ (fuel : Nat) (current : String) (visited : List String) (path : List PathEntry)
        (dom eid : String),
        idom current = some dom →
        ¬(dom = "" ∨ dom = VIRTUAL_SOURCE) →
        hasKey g.nodes dom = true →
        memB visited dom = false →
        find_edge_between g dom current = some eid →
        (getEdge g eid).max_rate * (99/100) ≤ (getEdge g eid).flow_rate →
        dom_trace_go g idom (fuel + 1) current visited path
          = ⟨"Belt Bottleneck (Dominator)", some dom,
              (path ++ [PathEntry.edge eid]) ++ [PathEntry.node dom]⟩)
    ∧ (∀ current visited path,
        dom_trace_go g idom 0 current visited path = ⟨"Complex Chain", none, path⟩) := by
  refine ⟨?_, ?_, fun c v p => rfl⟩
  · intro start
    have h := dom_trace_go_len g idom 30 start [start] [PathEntry.node start]
    simpa using h
  · intro fuel current visited path dom eid hid hvs hk hmemb hfe hflow
    simp only [dom_trace_go, hid]
    rw [if_neg hvs]
    rw [if_neg (fun hc => hc hk)]
    rw [if_neg (fun hc => by rw [hmemb] at hc; cases hc)]
    simp only [hfe]
    rw [if_pos (by rw [decide_eq_true_eq]; exact hflow)]

theorem C7_witness :
    wC7idom "S" = some "D"
    ∧ find_edge_between wC7 "D" "S" = some "eDS"
    ∧ (getEdge wC7 "eDS").max_rate * (99/100) ≤ (getEdge wC7 "eDS").flow_rate
    ∧ dom_trace_go wC7 wC7idom 30 "S" ["S"] [PathEntry.node "S"]
        = ⟨"Belt Bottleneck (Dominator)", some "D",
            ([PathEntry.node "S"] ++ [PathEntry.edge "eDS"]) ++ [PathEntry.node "D"]⟩
    ∧ ((dominator_trace_starvation wC7 wC7idom "S").trace).length ≤ 1 + 2 * 30 := by
  refine ⟨by decide, by decide, by norm_num [wC7, getEdge, findA], ?_, ?_⟩
  · exact (C7_dominator_trace wC7 wC7idom).2.1 29 "S" ["S"] [PathEntry.node "S"] "D" "eDS"
      (by decide) (by decide) (by decide) (by decide) (by decide)
      (by norm_num [wC7, getEdge, findA])
  · exact (C7_dominator_trace wC7 wC7idom).1 "S"

end SatOpt

namespace SatOpt

/-! ### C8: the direction-resolution loops -/

theorem getBelt_updBuilding (s : ParseState) (b : String) (f : PBuilding → PBuilding)
    (bid : String) : getBelt (updBuilding s b f) bid = getBelt s bid := rfl

theorem belts_updBuilding (s : ParseState) (b : String) (f : PBuilding → PBuilding) :
    (updBuilding s b f).belts = s.belts := rfl

theorem getBelt_updBelt_self (s : ParseState) (b : String) (f : PBelt → PBelt)
    (h : hasKey s.belts b = true) : getBelt (updBelt s b f) b = f (getBelt s b) :=
  findA_updA_self _ _ _ _ h

theorem getBelt_updBelt_ne (s : ParseState) (b bid : String) (f : PBelt → PBelt)
    (h : bid ≠ b) : getBelt (updBelt s b f) bid = getBelt s bid :=
  findA_updA_ne _ _ _ _ _ h

theorem hasKey_belts_updBelt (s : ParseState) (b : String) (f : PBelt → PBelt) (k : String) :
    hasKey (updBelt s b f).belts k = hasKey s.belts k :=
  hasKey_updA _ _ _ _

theorem length_belts_updBelt (s : ParseState) (b : String) (f : PBelt → PBelt) :
    (updBelt s b f).belts.length = s.belts.length := by
  simp [updBelt, updA]

/-- Writing only the dst field preserves any assigned src field, and
conversely. -/
theorem src_getBelt_updBelt_dst (s : ParseState) (b : String) (w : Option String)
    (bid : String) :
    (getBelt (updBelt s b (fun x => { x with dst_building := w })) bid).src_building
      = (getBelt s bid).src_building :=
  findA_updA_proj (fun x : PBelt => x.src_building) s.belts b bid
    (fun x => { x with dst_building := w }) default (fun x => rfl)

theorem dst_getBelt_updBelt_src (s : ParseState) (b : String) (w : Option String)
    (bid : String) :
    (getBelt (updBelt s b (fun x => { x with src_building := w })) bid).dst_building
      = (getBelt s bid).dst_building :=
  findA_updA_proj (fun x : PBelt => x.dst_building) s.belts b bid
    (fun x => { x with src_building := w }) default (fun x => rfl)

/-- A src or dst field already assigned survives an updBelt whose write
only fills an unassigned field of the looked-up belt. -/
theorem assigned_getBelt_updBelt_dst (s : ParseState) (b : String) (w : Option String)
    (bid : String) (v : String)
    (hnone : (getBelt s b).dst_building = none)
    (h : (getBelt s bid).dst_building = some v) :
    (getBelt (updBelt s b (fun x => { x with dst_building := w })) bid).dst_building
      = some v := by
  by_cases hb : bid = b
  · subst hb; rw [h] at hnone; cases hnone
  · rw [getBelt_updBelt_ne _ _ _ _ hb]; exact h

theorem assigned_getBelt_updBelt_src (s : ParseState) (b : String) (w : Option String)
    (bid : String) (v : String)
    (hnone : (getBelt s b).src_building = none)
    (h : (getBelt s bid).src_building = some v) :
    (getBelt (updBelt s b (fun x => { x with src_building := w })) bid).src_building
      = some v := by
  by_cases hb : bid = b
  · subst hb; rw [h] at hnone; cases hnone
  · rw [getBelt_updBelt_ne _ _ _ _ hb]; exact h

/-- Monotonicity of one pipe-connection step: assigned endpoints are
never cleared or reassigned. -/
theorem pipe_conn_step_mono (s : ParseState) (c : PipeConn) (bid : String) (v : String) :
    ((getBelt s bid).src_building = some v →
      (getBelt (pipe_conn_step s c).1 bid).src_building = some v)
    ∧ ((getBelt s bid).dst_building = some v →
      (getBelt (pipe_conn_step s c).1 bid).dst_building = some v) := by
  simp only [pipe_conn_step]
  split
  · split
    · rename_i hcond
      constructor
      · intro h
        rw [getBelt_updBuilding, src_getBelt_updBelt_dst]; exact h
      · intro h
        rw [getBelt_updBuilding]
        exact assigned_getBelt_updBelt_dst _ _ _ _ _
          (Option.not_isSome_iff_eq_none.mp (by simpa using hcond.2)) h
    · split
      · rename_i hcond
        constructor
        · intro h
          rw [getBelt_updBuilding]
          exact assigned_getBelt_updBelt_src _ _ _ _ _
            (Option.not_isSome_iff_eq_none.mp (by simpa using hcond.2)) h
        · intro h
          rw [getBelt_updBuilding, dst_getBelt_updBelt_src]; exact h
      · exact ⟨fun h => h, fun h => h⟩
  · exact ⟨fun h => h, fun h => h⟩

/-- A no-change step leaves the state untouched. -/
theorem pipe_conn_step_false (s : ParseState) (c : PipeConn)
    (h : (pipe_conn_step s c).2 = false) : (pipe_conn_step s c).1 = s := by
  simp only [pipe_conn_step] at h ⊢
  split at h
  · split at h
    · simp at h
    · split at h
      · simp at h
      · rename_i h1 h2 h3
        rw [if_pos h1, if_neg h2, if_neg h3]
  · rename_i h1
    rw [if_neg h1]

theorem hasKey_belts_pipe_conn_step (s : ParseState) (c : PipeConn) (k : String) :
    hasKey (pipe_conn_step s c).1.belts k = hasKey s.belts k := by
  simp only [pipe_conn_step]
  split
  · split
    · simp [updBuilding, updBelt, hasKey_updA]
    · split
      · simp [updBuilding, updBelt, hasKey_updA]
      · rfl
  · rfl

theorem length_belts_pipe_conn_step (s : ParseState) (c : PipeConn) :
    (pipe_conn_step s c).1.belts.length = s.belts.length := by
  simp only [pipe_conn_step]
  split
  · split
    · simp [updBuilding, updBelt, updA]
    · split
      · simp [updBuilding, updBelt, updA]
      · rfl
  · rfl

end SatOpt

namespace SatOpt

/-! ### C8: counting assigned endpoints -/

theorem isSome_toNat_le_one (o : Option String) : o.isSome.toNat ≤ 1 := by
  cases o <;> simp

theorem beltCount_le_two (b : PBelt) : beltCount b ≤ 2 := by
  have h1 := isSome_toNat_le_one b.src_building
  have h2 := isSome_toNat_le_one b.dst_building
  simp only [beltCount]
  omega

theorem assignedCount_le (s : ParseState) : assignedCount s ≤ 2 * s.belts.length := by
  show (s.belts.map (fun p => beltCount p.2)).sum ≤ 2 * s.belts.length
  induction s.belts with
  | nil => exact Nat.le_refl 0
  | cons p t ih =>
    have := beltCount_le_two p.2
    simp only [List.map_cons, List.sum_cons, List.length_cons]
    omega

theorem sum_map_updA_le {α : Type} (g : α → Nat) (l : List (String × α)) (k : String)
    (f : α → α) (hmono : ∀ x, g x ≤ g (f x)) :
    (l.map (fun p => g p.2)).sum ≤ ((updA l k f).map (fun p => g p.2)).sum := by
  induction l with
  | nil => exact Nat.le_refl 0
  | cons p t ih =>
    by_cases hp : p.1 = k
    · simp only [updA_cons, List.map_cons, List.sum_cons, if_pos hp]
      exact Nat.add_le_add (hmono p.2) ih
    · simp only [updA_cons, List.map_cons, List.sum_cons, if_neg hp]
      exact Nat.add_le_add (Nat.le_refl _) ih

theorem sum_map_updA_lt {α : Type} (g : α → Nat) (l : List (String × α)) (k : String)
    (f : α → α) (d : α) (hmono : ∀ x, g x ≤ g (f x)) (hkey : hasKey l k = true)
    (hstrict : g (findA l k d) < g (f (findA l k d))) :
    (l.map (fun p => g p.2)).sum < ((updA l k f).map (fun p => g p.2)).sum := by
  induction l with
  | nil => simp [hasKey] at hkey
  | cons p t ih =>
    by_cases hp : p.1 = k
    · simp only [findA, if_pos hp] at hstrict
      simp only [updA_cons, List.map_cons, List.sum_cons, if_pos hp]
      exact Nat.add_lt_add_of_lt_of_le hstrict (sum_map_updA_le g t k f hmono)
    · simp only [hasKey, if_neg hp] at hkey
      simp only [findA, if_neg hp] at hstrict
      simp only [updA_cons, List.map_cons, List.sum_cons, if_neg hp]
      exact Nat.add_lt_add_left (ih hkey hstrict) _

theorem findA_of_hasKey_false {α : Type} (l : List (String × α)) (k : String) (d : α)
    (h : hasKey l k = false) : findA l k d = d := by
  induction l with
  | nil => rfl
  | cons p t ih =>
    by_cases hp : p.1 = k
    · simp [hasKey, if_pos hp] at h
    · simp only [hasKey, if_neg hp] at h
      simp only [findA, if_neg hp]
      exact ih h

theorem hasKey_of_src_isSome (s : ParseState) (k : String)
    (h : (getBelt s k).src_building.isSome = true) : hasKey s.belts k = true := by
  cases hkk : hasKey s.belts k with
  | true => rfl
  | false =>
    rw [show getBelt s k = default from findA_of_hasKey_false _ _ _ hkk] at h
    exact absurd h (by decide)

theorem hasKey_of_dst_isSome (s : ParseState) (k : String)
    (h : (getBelt s k).dst_building.isSome = true) : hasKey s.belts k = true := by
  cases hkk : hasKey s.belts k with
  | true => rfl
  | false =>
    rw [show getBelt s k = default from findA_of_hasKey_false _ _ _ hkk] at h
    exact absurd h (by decide)

theorem assignedCount_pipe_branch_le (s : ParseState) (c1 c2 : String)
    (f : PBelt → PBelt) (g : PBuilding → PBuilding)
    (hf : ∀ x, beltCount x ≤ beltCount (f x)) :
    assignedCount s
      ≤ assignedCount ((updBuilding (updBelt s c1 f) c2 g, true) : ParseState × Bool).1 :=
  sum_map_updA_le beltCount s.belts c1 f hf

theorem assignedCount_pipe_branch_lt (s : ParseState) (c1 c2 : String)
    (f : PBelt → PBelt) (g : PBuilding → PBuilding)
    (hf : ∀ x, beltCount x ≤ beltCount (f x))
    (hkey : hasKey s.belts c1 = true)
    (hstrict : beltCount (getBelt s c1) < beltCount (f (getBelt s c1))) :
    assignedCount s
      < assignedCount ((updBuilding (updBelt s c1 f) c2 g, true) : ParseState × Bool).1 :=
  sum_map_updA_lt beltCount s.belts c1 f default hf hkey hstrict

theorem pipe_conn_step_count_le (s : ParseState) (c : PipeConn) :
    assignedCount s ≤ assignedCount (pipe_conn_step s c).1 := by
  simp only [pipe_conn_step]
  split
  · split
    · apply assignedCount_pipe_branch_le
      intro x
      have h1 := isSome_toNat_le_one x.dst_building
      simp only [beltCount]
      simp only [Option.isSome_some, Bool.toNat_true]
      omega
    · split
      · apply assignedCount_pipe_branch_le
        intro x
        have h1 := isSome_toNat_le_one x.src_building
        simp only [beltCount]
        simp only [Option.isSome_some, Bool.toNat_true]
        omega
      · exact Nat.le_refl _
  · exact Nat.le_refl _

theorem pipe_conn_step_count_lt (s : ParseState) (c : PipeConn)
    (h : (pipe_conn_step s c).2 = true) :
    assignedCount s < assignedCount (pipe_conn_step s c).1 := by
  simp only [pipe_conn_step] at h ⊢
  split at h
  · rename_i h1
    rw [if_pos h1]
    split at h
    · rename_i h2
      rw [if_pos h2]
      apply assignedCount_pipe_branch_lt
      · intro x
        have hx := isSome_toNat_le_one x.dst_building
        simp only [beltCount]
        simp only [Option.isSome_some, Bool.toNat_true]
        omega
      · exact hasKey_of_src_isSome s c.1 h2.1
      · have hd : (getBelt s c.1).dst_building = none :=
          Option.isNone_iff_eq_none.mp h2.2
        simp only [beltCount, hd, h2.1]
        simp only [Option.isSome_some, Option.isSome_none, Bool.toNat_true,
          Bool.toNat_false]
        omega
    · rename_i h2
      rw [if_neg h2]
      split at h
      · rename_i h3
        rw [if_pos h3]
        apply assignedCount_pipe_branch_lt
        · intro x
          have hx := isSome_toNat_le_one x.src_building
          simp only [beltCount]
          simp only [Option.isSome_some, Bool.toNat_true]
          omega
        · exact hasKey_of_dst_isSome s c.1 h3.1
        · have hd : (getBelt s c.1).src_building = none :=
            Option.isNone_iff_eq_none.mp h3.2
          simp only [beltCount, hd, h3.1]
          simp only [Option.isSome_some, Option.isSome_none, Bool.toNat_true,
            Bool.toNat_false]
          omega
      · simp at h
  · simp at h

end SatOpt

namespace SatOpt

/-! ### C8: the belt-chain half steps -/

theorem MonoStep_refl (t : ParseState) : MonoStep t t := fun _ _ => ⟨id, id⟩

theorem MonoStep_trans {a b c : ParseState} (h1 : MonoStep a b) (h2 : MonoStep b c) :
    MonoStep a c := fun bid v =>
  ⟨fun h => (h2 bid v).1 ((h1 bid v).1 h), fun h => (h2 bid v).2 ((h1 bid v).2 h)⟩

theorem propagate_src_mono (s : ParseState) (x y : String) :
    MonoStep s (propagate_src s x y).1 := by
  simp only [propagate_src]
  split
  · rename_i hc
    intro bid v
    constructor
    · intro h
      exact assigned_getBelt_updBelt_src s y _ bid v (Option.isNone_iff_eq_none.mp hc.2) h
    · intro h
      exact Eq.trans (dst_getBelt_updBelt_src s y _ bid) h
  · exact MonoStep_refl s

theorem propagate_dst_mono (s : ParseState) (x y : String) :
    MonoStep s (propagate_dst s x y).1 := by
  simp only [propagate_dst]
  split
  · rename_i hc
    intro bid v
    constructor
    · intro h
      exact Eq.trans (src_getBelt_updBelt_dst s y _ bid) h
    · intro h
      exact assigned_getBelt_updBelt_dst s y _ bid v (Option.isNone_iff_eq_none.mp hc.2) h
  · exact MonoStep_refl s

theorem propagate_src_false (s : ParseState) (x y : String)
    (h : (propagate_src s x y).2 = false) : (propagate_src s x y).1 = s := by
  simp only [propagate_src] at h ⊢
  split at h
  · simp at h
  · rename_i hc
    rw [if_neg hc]

theorem propagate_dst_false (s : ParseState) (x y : String)
    (h : (propagate_dst s x y).2 = false) : (propagate_dst s x y).1 = s := by
  simp only [propagate_dst] at h ⊢
  split at h
  · simp at h
  · rename_i hc
    rw [if_neg hc]

theorem propagate_src_hasKey (s : ParseState) (x y k : String) :
    hasKey (propagate_src s x y).1.belts k = hasKey s.belts k := by
  simp only [propagate_src]
  split
  · simp [updBelt, hasKey_updA]
  · rfl

theorem propagate_dst_hasKey (s : ParseState) (x y k : String) :
    hasKey (propagate_dst s x y).1.belts k = hasKey s.belts k := by
  simp only [propagate_dst]
  split
  · simp [updBelt, hasKey_updA]
  · rfl

theorem propagate_src_length (s : ParseState) (x y : String) :
    (propagate_src s x y).1.belts.length = s.belts.length := by
  simp only [propagate_src]
  split
  · simp [updBelt, updA]
  · rfl

theorem propagate_dst_length (s : ParseState) (x y : String) :
    (propagate_dst s x y).1.belts.length = s.belts.length := by
  simp only [propagate_dst]
  split
  · simp [updBelt, updA]
  · rfl

theorem propagate_src_count_le (s : ParseState) (x y : String) :
    assignedCount s ≤ assignedCount (propagate_src s x y).1 := by
  simp only [propagate_src]
  split
  · rename_i hc
    refine sum_map_updA_le beltCount s.belts y
      (fun b => { b with src_building := (getBelt s x).src_building }) (fun b => ?_)
    have h1 := isSome_toNat_le_one b.src_building
    simp only [beltCount, hc.1]
    simp only [Bool.toNat_true]
    omega
  · exact Nat.le_refl _

theorem propagate_dst_count_le (s : ParseState) (x y : String) :
    assignedCount s ≤ assignedCount (propagate_dst s x y).1 := by
  simp only [propagate_dst]
  split
  · rename_i hc
    refine sum_map_updA_le beltCount s.belts y
      (fun b => { b with dst_building := (getBelt s x).dst_building }) (fun b => ?_)
    have h1 := isSome_toNat_le_one b.dst_building
    simp only [beltCount, hc.1]
    simp only [Bool.toNat_true]
    omega
  · exact Nat.le_refl _

theorem propagate_src_count_lt (s : ParseState) (x y : String)
    (hkey : hasKey s.belts y = true) (h : (propagate_src s x y).2 = true) :
    assignedCount s < assignedCount (propagate_src s x y).1 := by
  simp only [propagate_src] at h ⊢
  split at h
  · rename_i hc
    rw [if_pos hc]
    refine sum_map_updA_lt beltCount s.belts y
      (fun b => { b with src_building := (getBelt s x).src_building }) default
      (fun b => ?_) hkey ?_
    · have h1 := isSome_toNat_le_one b.src_building
      simp only [beltCount, hc.1]
      simp only [Bool.toNat_true]
      omega
    · have hn : (findA s.belts y (default : PBelt)).src_building = none :=
        Option.isNone_iff_eq_none.mp hc.2
      simp only [beltCount, hn, hc.1]
      simp only [Option.isSome_some, Option.isSome_none, Bool.toNat_true,
        Bool.toNat_false]
      omega
  · simp at h

theorem propagate_dst_count_lt (s : ParseState) (x y : String)
    (hkey : hasKey s.belts y = true) (h : (propagate_dst s x y).2 = true) :
    assignedCount s < assignedCount (propagate_dst s x y).1 := by
  simp only [propagate_dst] at h ⊢
  split at h
  · rename_i hc
    rw [if_pos hc]
    refine sum_map_updA_lt beltCount s.belts y
      (fun b => { b with dst_building := (getBelt s x).dst_building }) default
      (fun b => ?_) hkey ?_
    · have h1 := isSome_toNat_le_one b.dst_building
      simp only [beltCount, hc.1]
      simp only [Bool.toNat_true]
      omega
    · have hn : (findA s.belts y (default : PBelt)).dst_building = none :=
        Option.isNone_iff_eq_none.mp hc.2
      simp only [beltCount, hn, hc.1]
      simp only [Option.isSome_some, Option.isSome_none, Bool.toNat_true,
        Bool.toNat_false]
      omega
  · simp at h

/-! ### C8: the composed belt-chain step -/

theorem belt_conn_step_mono (s : ParseState) (c : BeltConn) :
    MonoStep s (belt_conn_step s c).1 := by
  simp only [belt_conn_step]
  split
  · exact MonoStep_trans (propagate_src_mono s c.1 c.2.1) (propagate_dst_mono _ c.2.1 c.1)
  · exact MonoStep_trans (propagate_src_mono s c.2.1 c.1) (propagate_dst_mono _ c.1 c.2.1)

theorem belt_conn_step_hasKey (s : ParseState) (c : BeltConn) (k : String) :
    hasKey (belt_conn_step s c).1.belts k = hasKey s.belts k := by
  simp only [belt_conn_step]
  split
  · exact Eq.trans (propagate_dst_hasKey _ c.2.1 c.1 k) (propagate_src_hasKey s c.1 c.2.1 k)
  · exact Eq.trans (propagate_dst_hasKey _ c.1 c.2.1 k) (propagate_src_hasKey s c.2.1 c.1 k)

theorem belt_conn_step_length (s : ParseState) (c : BeltConn) :
    (belt_conn_step s c).1.belts.length = s.belts.length := by
  simp only [belt_conn_step]
  split
  · exact Eq.trans (propagate_dst_length _ c.2.1 c.1) (propagate_src_length s c.1 c.2.1)
  · exact Eq.trans (propagate_dst_length _ c.1 c.2.1) (propagate_src_length s c.2.1 c.1)

theorem belt_conn_step_count_le (s : ParseState) (c : BeltConn) :
    assignedCount s ≤ assignedCount (belt_conn_step s c).1 := by
  simp only [belt_conn_step]
  split
  · exact le_trans (propagate_src_count_le s c.1 c.2.1) (propagate_dst_count_le _ c.2.1 c.1)
  · exact le_trans (propagate_src_count_le s c.2.1 c.1) (propagate_dst_count_le _ c.1 c.2.1)

theorem belt_conn_step_false (s : ParseState) (c : BeltConn)
    (h : (belt_conn_step s c).2 = false) : (belt_conn_step s c).1 = s := by
  simp only [belt_conn_step] at h ⊢
  split at h
  · rename_i h1
    rw [if_pos h1]
    simp only [Bool.or_eq_false_iff] at h
    exact Eq.trans (propagate_dst_false _ c.2.1 c.1 h.2) (propagate_src_false s c.1 c.2.1 h.1)
  · rename_i h1
    rw [if_neg h1]
    simp only [Bool.or_eq_false_iff] at h
    exact Eq.trans (propagate_dst_false _ c.1 c.2.1 h.2) (propagate_src_false s c.2.1 c.1 h.1)

theorem belt_conn_step_count_lt (s : ParseState) (c : BeltConn)
    (hk1 : hasKey s.belts c.1 = true) (hk2 : hasKey s.belts c.2.1 = true)
    (h : (belt_conn_step s c).2 = true) :
    assignedCount s < assignedCount (belt_conn_step s c).1 := by
  simp only [belt_conn_step] at h ⊢
  split at h
  · rename_i h1
    rw [if_pos h1]
    simp only [Bool.or_eq_true] at h
    cases h with
    | inl h2 =>
      exact lt_of_lt_of_le (propagate_src_count_lt s c.1 c.2.1 hk2 h2)
        (propagate_dst_count_le _ c.2.1 c.1)
    | inr h2 =>
      have hk : hasKey (propagate_src s c.1 c.2.1).1.belts c.1 = true :=
        Eq.trans (propagate_src_hasKey s c.1 c.2.1 c.1) hk1
      exact lt_of_le_of_lt (propagate_src_count_le s c.1 c.2.1)
        (propagate_dst_count_lt _ c.2.1 c.1 hk h2)
  · rename_i h1
    rw [if_neg h1]
    simp only [Bool.or_eq_true] at h
    cases h with
    | inl h2 =>
      exact lt_of_lt_of_le (propagate_src_count_lt s c.2.1 c.1 hk1 h2)
        (propagate_dst_count_le _ c.1 c.2.1)
    | inr h2 =>
      have hk : hasKey (propagate_src s c.2.1 c.1).1.belts c.2.1 = true :=
        Eq.trans (propagate_src_hasKey s c.2.1 c.1 c.2.1) hk2
      exact lt_of_le_of_lt (propagate_src_count_le s c.2.1 c.1)
        (propagate_dst_count_lt _ c.1 c.2.1 hk h2)

end SatOpt

namespace SatOpt

/-! ### C8: one pass over all connection entries -/

theorem pass_inv {γ : Type} (g : ParseState → γ → ParseState × Bool) (K : ParseState → Prop)
    (hK : ∀ t c, K t → K (g t c).1) :
    ∀ (conns : List γ) (s : ParseState) (b : Bool), K s →
      K (conns.foldl (fun acc c => ((g acc.1 c).1, acc.2 || (g acc.1 c).2)) (s, b)).1 := by
  intro conns
  induction conns with
  | nil => intro s b hs; exact hs
  | cons c cs ih =>
    intro s b hs
    simp only [List.foldl_cons]
    exact ih _ _ (hK s c hs)

theorem pass_count {γ : Type} (g : ParseState → γ → ParseState × Bool)
    (K : ParseState → Prop) (C : γ → Prop)
    (hK : ∀ t c, K t → K (g t c).1)
    (hle : ∀ t c, assignedCount t ≤ assignedCount (g t c).1)
    (hlt : ∀ t c, C c → K t → (g t c).2 = true → assignedCount t < assignedCount (g t c).1)
    (hfalse : ∀ t c, (g t c).2 = false → (g t c).1 = t) :
    ∀ (conns : List γ), (∀ c ∈ conns, C c) → ∀ (s : ParseState) (b : Bool), K s →
      (assignedCount s
          ≤ assignedCount (conns.foldl
              (fun acc c => ((g acc.1 c).1, acc.2 || (g acc.1 c).2)) (s, b)).1)
      ∧ ((conns.foldl (fun acc c => ((g acc.1 c).1, acc.2 || (g acc.1 c).2)) (s, b)).2 = true
          → b = true ∨ assignedCount s
              < assignedCount (conns.foldl
                  (fun acc c => ((g acc.1 c).1, acc.2 || (g acc.1 c).2)) (s, b)).1)
      ∧ (b = true
          → (conns.foldl (fun acc c => ((g acc.1 c).1, acc.2 || (g acc.1 c).2)) (s, b)).2
              = true)
      ∧ ((conns.foldl (fun acc c => ((g acc.1 c).1, acc.2 || (g acc.1 c).2)) (s, b)).2 = false
          → (conns.foldl (fun acc c => ((g acc.1 c).1, acc.2 || (g acc.1 c).2)) (s, b)).1
              = s) := by
  intro conns
  induction conns with
  | nil =>
    intro _ s b _
    exact ⟨Nat.le_refl _, fun h => Or.inl h, fun h => h, fun _ => rfl⟩
  | cons c cs ih =>
    intro hC s b hs
    simp only [List.foldl_cons]
    have hCc : C c := hC c (List.mem_cons_self c cs)
    have hCcs : ∀ x ∈ cs, C x := fun x hx => hC x (List.mem_cons_of_mem c hx)
    have IH := ih hCcs (g s c).1 (b || (g s c).2) (hK s c hs)
    refine ⟨le_trans (hle s c) IH.1, ?_, ?_, ?_⟩
    · intro h2
      cases IH.2.1 h2 with
      | inl hor =>
        rw [Bool.or_eq_true] at hor
        cases hor with
        | inl hb => exact Or.inl hb
        | inr hg => exact Or.inr (lt_of_lt_of_le (hlt s c hCc hs hg) IH.1)
      | inr hstep => exact Or.inr (lt_of_le_of_lt (hle s c) hstep)
    · intro hb
      refine IH.2.2.1 ?_
      rw [hb]
      simp
    · intro h2
      have hor : (b || (g s c).2) = false := by
        cases hbb : (b || (g s c).2) with
        | false => rfl
        | true =>
          rw [IH.2.2.1 hbb] at h2
          simp at h2
      rw [Bool.or_eq_false_iff] at hor
      exact Eq.trans (IH.2.2.2 h2) (hfalse s c hor.2)

theorem pipe_pass_mono (conns : List PipeConn) (s : ParseState) :
    MonoStep s (pipe_pass conns s).1 :=
  pass_inv pipe_conn_step (MonoStep s)
    (fun t c ht => MonoStep_trans ht (fun bid v => pipe_conn_step_mono t c bid v))
    conns s false (MonoStep_refl s)

theorem belt_pass_mono (conns : List BeltConn) (s : ParseState) :
    MonoStep s (belt_pass conns s).1 :=
  pass_inv belt_conn_step (MonoStep s)
    (fun t c ht => MonoStep_trans ht (belt_conn_step_mono t c))
    conns s false (MonoStep_refl s)

theorem pipe_pass_length (conns : List PipeConn) (s : ParseState) :
    (pipe_pass conns s).1.belts.length = s.belts.length :=
  pass_inv pipe_conn_step (fun t => t.belts.length = s.belts.length)
    (fun t c ht => Eq.trans (length_belts_pipe_conn_step t c) ht) conns s false rfl

theorem belt_pass_length (conns : List BeltConn) (s : ParseState) :
    (belt_pass conns s).1.belts.length = s.belts.length :=
  pass_inv belt_conn_step (fun t => t.belts.length = s.belts.length)
    (fun t c ht => Eq.trans (belt_conn_step_length t c) ht) conns s false rfl

theorem belt_pass_hasKey (conns : List BeltConn) (s : ParseState) (k : String) :
    hasKey (belt_pass conns s).1.belts k = hasKey s.belts k :=
  pass_inv belt_conn_step (fun t => hasKey t.belts k = hasKey s.belts k)
    (fun t c ht => Eq.trans (belt_conn_step_hasKey t c k) ht) conns s false rfl

theorem pipe_pass_facts (conns : List PipeConn) (s : ParseState) :
    ((pipe_pass conns s).2 = true → assignedCount s < assignedCount (pipe_pass conns s).1)
    ∧ ((pipe_pass conns s).2 = false → (pipe_pass conns s).1 = s) := by
  have h := pass_count pipe_conn_step (fun _ => True) (fun _ => True)
    (fun _ _ _ => trivial) pipe_conn_step_count_le
    (fun t c _ _ h2 => pipe_conn_step_count_lt t c h2)
    pipe_conn_step_false conns (fun _ _ => trivial) s false trivial
  exact ⟨fun h2 => (h.2.1 h2).resolve_left (by simp), h.2.2.2⟩

theorem belt_pass_facts (conns : List BeltConn) (s : ParseState)
    (hkeys : ∀ c ∈ conns, hasKey s.belts c.1 = true ∧ hasKey s.belts c.2.1 = true) :
    ((belt_pass conns s).2 = true → assignedCount s < assignedCount (belt_pass conns s).1)
    ∧ ((belt_pass conns s).2 = false → (belt_pass conns s).1 = s) := by
  have h := pass_count belt_conn_step
    (fun t => ∀ k, hasKey t.belts k = hasKey s.belts k)
    (fun c => hasKey s.belts c.1 = true ∧ hasKey s.belts c.2.1 = true)
    (fun t c hK k => Eq.trans (belt_conn_step_hasKey t c k) (hK k))
    belt_conn_step_count_le
    (fun t c hC hK h2 => belt_conn_step_count_lt t c
      (Eq.trans (hK c.1) hC.1) (Eq.trans (hK c.2.1) hC.2) h2)
    belt_conn_step_false conns hkeys s false (fun _ => rfl)
  exact ⟨fun h2 => (h.2.1 h2).resolve_left (by simp), h.2.2.2⟩

/-! ### C8: the bounded while loops -/

theorem pipe_loop_mono (conns : List PipeConn) :
    ∀ (fuel : Nat) (s : ParseState), MonoStep s (pipe_loop conns fuel s) := by
  intro fuel
  induction fuel with
  | zero => intro s; exact MonoStep_refl s
  | succ n ih =>
    intro s
    simp only [pipe_loop]
    split
    · exact MonoStep_trans (pipe_pass_mono conns s) (ih _)
    · exact pipe_pass_mono conns s

theorem belt_loop_mono (conns : List BeltConn) :
    ∀ (fuel : Nat) (s : ParseState), MonoStep s (belt_loop conns fuel s) := by
  intro fuel
  induction fuel with
  | zero => intro s; exact MonoStep_refl s
  | succ n ih =>
    intro s
    simp only [belt_loop]
    split
    · exact MonoStep_trans (belt_pass_mono conns s) (ih _)
    · exact belt_pass_mono conns s

theorem pipe_loop_fix (conns : List PipeConn) :
    ∀ (fuel : Nat) (s : ParseState), 2 * s.belts.length ≤ assignedCount s + fuel →
      pipe_pass conns (pipe_loop conns fuel s) = (pipe_loop conns fuel s, false) := by
  intro fuel
  induction fuel with
  | zero =>
    intro s h
    simp only [pipe_loop]
    cases hr : (pipe_pass conns s).2 with
    | false =>
      have h1 := (pipe_pass_facts conns s).2 hr
      calc pipe_pass conns s = ((pipe_pass conns s).1, (pipe_pass conns s).2) := rfl
        _ = (s, false) := by rw [h1, hr]
    | true =>
      exfalso
      have h1 := (pipe_pass_facts conns s).1 hr
      have h2 := assignedCount_le (pipe_pass conns s).1
      have h3 := pipe_pass_length conns s
      omega
  | succ n ih =>
    intro s h
    simp only [pipe_loop]
    split
    · rename_i hr
      apply ih
      have h1 := (pipe_pass_facts conns s).1 hr
      have h3 := pipe_pass_length conns s
      omega
    · rename_i hr
      have hrf : (pipe_pass conns s).2 = false := by
        cases hb : (pipe_pass conns s).2 with
        | false => rfl
        | true => exact absurd hb hr
      have h1 := (pipe_pass_facts conns s).2 hrf
      rw [h1]
      calc pipe_pass conns s = ((pipe_pass conns s).1, (pipe_pass conns s).2) := rfl
        _ = (s, false) := by rw [h1, hrf]

theorem belt_loop_fix (conns : List BeltConn) :
    ∀ (fuel : Nat) (s : ParseState),
      (∀ c ∈ conns, hasKey s.belts c.1 = true ∧ hasKey s.belts c.2.1 = true) →
      2 * s.belts.length ≤ assignedCount s + fuel →
      belt_pass conns (belt_loop conns fuel s) = (belt_loop conns fuel s, false) := by
  intro fuel
  induction fuel with
  | zero =>
    intro s hkeys h
    simp only [belt_loop]
    cases hr : (belt_pass conns s).2 with
    | false =>
      have h1 := (belt_pass_facts conns s hkeys).2 hr
      calc belt_pass conns s = ((belt_pass conns s).1, (belt_pass conns s).2) := rfl
        _ = (s, false) := by rw [h1, hr]
    | true =>
      exfalso
      have h1 := (belt_pass_facts conns s hkeys).1 hr
      have h2 := assignedCount_le (belt_pass conns s).1
      have h3 := belt_pass_length conns s
      omega
  | succ n ih =>
    intro s hkeys h
    simp only [belt_loop]
    split
    · rename_i hr
      apply ih
      · intro c hc
        exact ⟨Eq.trans (belt_pass_hasKey conns s c.1) (hkeys c hc).1,
          Eq.trans (belt_pass_hasKey conns s c.2.1) (hkeys c hc).2⟩
      · have h1 := (belt_pass_facts conns s hkeys).1 hr
        have h3 := belt_pass_length conns s
        omega
    · rename_i hr
      have hrf : (belt_pass conns s).2 = false := by
        cases hb : (belt_pass conns s).2 with
        | false => rfl
        | true => exact absurd hb hr
      have h1 := (belt_pass_facts conns s hkeys).2 hrf
      rw [h1]
      calc belt_pass conns s = ((belt_pass conns s).1, (belt_pass conns s).2) := rfl
        _ = (s, false) := by rw [h1, hrf]

end SatOpt

namespace SatOpt

/-- C8: the iterative pipe-direction loop and the belt-chain propagation
loop of parse_save are monotone — a src_building or dst_building once
assigned (some v) is never cleared or reassigned by any later iteration
of either loop — and, the belt-adjacency entries referring to belts
present in the dictionary (as parse_save constructs them) and the fuel
covering the O(E) bound of two endpoints per belt, each loop reaches a
fixed point: one more pass changes nothing. -/
theorem C8_parse_loops_monotone (pconns : List PipeConn) (bconns : List BeltConn)
    (s : ParseState) (fuel : Nat) (bid v : String)
    (hkeys : ∀ c ∈ bconns, hasKey s.belts c.1 = true ∧ hasKey s.belts c.2.1 = true)
    (hfuel : 2 * s.belts.length ≤ assignedCount s + fuel) :
    ((getBelt s bid).src_building = some v →
        (getBelt (pipe_loop pconns fuel s) bid).src_building = some v)
    ∧ ((getBelt s bid).dst_building = some v →
        (getBelt (pipe_loop pconns fuel s) bid).dst_building = some v)
    ∧ ((getBelt s bid).src_building = some v →
        (getBelt (belt_loop bconns fuel s) bid).src_building = some v)
    ∧ ((getBelt s bid).dst_building = some v →
        (getBelt (belt_loop bconns fuel s) bid).dst_building = some v)
    ∧ pipe_pass pconns (pipe_loop pconns fuel s) = (pipe_loop pconns fuel s, false)
    ∧ belt_pass bconns (belt_loop bconns fuel s) = (belt_loop bconns fuel s, false) :=
  ⟨(pipe_loop_mono pconns fuel s bid v).1, (pipe_loop_mono pconns fuel s bid v).2,
    (belt_loop_mono bconns fuel s bid v).1, (belt_loop_mono bconns fuel s bid v).2,
    pipe_loop_fix pconns fuel s hfuel, belt_loop_fix bconns fuel s hkeys hfuel⟩

/-- C8 witness: the loops on the concrete state wC8 with fuel 4. -/
theorem C8_witness :
    (((getBelt wC8 "b1").src_building = some "X" →
        (getBelt (pipe_loop wC8p 4 wC8) "b1").src_building = some "X")
      ∧ ((getBelt wC8 "b1").dst_building = some "X" →
        (getBelt (pipe_loop wC8p 4 wC8) "b1").dst_building = some "X")
      ∧ ((getBelt wC8 "b1").src_building = some "X" →
        (getBelt (belt_loop wC8b 4 wC8) "b1").src_building = some "X")
      ∧ ((getBelt wC8 "b1").dst_building = some "X" →
        (getBelt (belt_loop wC8b 4 wC8) "b1").dst_building = some "X")
      ∧ pipe_pass wC8p (pipe_loop wC8p 4 wC8) = (pipe_loop wC8p 4 wC8, false)
      ∧ belt_pass wC8b (belt_loop wC8b 4 wC8) = (belt_loop wC8b 4 wC8, false)) :=
  C8_parse_loops_monotone wC8p wC8b wC8 4 "b1" "X" (by decide) (by decide)

end SatOpt

namespace SatOpt

/-! ### C9: available_input against the final incoming flows -/

theorem ai_updNode (g : FlowGraph) (nid : String) (f : FlowNode → FlowNode)
    (hf : ∀ x, (f x).available_input = x.available_input) (nid' : String) :
    (getNode (updNode g nid f) nid').available_input = (getNode g nid').available_input :=
  findA_updA_proj (fun x : FlowNode => x.available_input) g.nodes nid nid' f default hf

/-- _calculate_node_flow always records available_input = the total
incoming flow read at the start of the call, whatever the category. -/
theorem cnf_available_input (g : FlowGraph) (nid : String)
    (hk : hasKey g.nodes nid = true) :
    (getNode (calculate_node_flow nid g) nid).available_input
      = totalIn g (getNode g nid) := by
  have hao : ∀ (g' : FlowGraph) (v : ℚ),
      (getNode (updNode g' nid (fun n => { n with available_output := v })) nid).available_input
        = (getNode g' nid).available_input :=
    fun g' v => ai_updNode g' nid
      (fun n => { n with available_output := v }) (fun x => rfl) nid
  have hbase : (getNode (updNode g nid
      (fun n => { n with available_input := totalIn g (getNode g nid) })) nid).available_input
        = totalIn g (getNode g nid) := by
    rw [getNode_updNode_self _ _ _ hk]
  simp only [calculate_node_flow]
  repeat' split
  all_goals simp only [getNode_setOutFlows, hao, hbase]

/-- Every member step of _fixed_point_scc likewise records
available_input = the total incoming flow at its own call time. -/
theorem spn_available_input (g : FlowGraph) (nid : String)
    (hk : hasKey g.nodes nid = true) :
    (getNode (scc_process_node g nid).1 nid).available_input
      = totalIn g (getNode g nid) := by
  have hao : ∀ (g' : FlowGraph) (v : ℚ),
      (getNode (updNode g' nid (fun n => { n with available_output := v })) nid).available_input
        = (getNode g' nid).available_input :=
    fun g' v => ai_updNode g' nid
      (fun n => { n with available_output := v }) (fun x => rfl) nid
  simp only [scc_process_node]
  split
  · simp only [hao]
    exact cnf_available_input g nid hk
  · simp only [getNode_setOutFlows, hao]
    exact cnf_available_input g nid hk

theorem exC9_stepB (bp b d d2 : ℚ) (h0 : 0 ≤ d) (h1 : d ≤ b) (h2 : b ≤ 90000)
    (hd2 : d2 = 7/10 * b + (1 - 7/10) * d) :
    scc_process_node (stateAt bp b d) "B" = (stateMid d b d2, |d2 - d|) := by
  subst hd2
  simp +decide [scc_process_node, calculate_node_flow, stateAt, stateMid, getNode, getEdge,
    updNode, updEdge, findA, updA, totalIn, setOutFlows, strContains, isInfixB, isPrefixB,
    List.isEmpty]
  linarith

theorem exC9_stepA (dOld b d2 b2 : ℚ) (h8 : 0 ≤ b) (h2 : b ≤ 90000)
    (h6 : 0 ≤ d2) (h7 : d2 ≤ 90000)
    (hb2 : b2 = 7/10 * (60 + d2) + (1 - 7/10) * b) :
    scc_process_node (stateMid dOld b d2) "A" = (stateAt b b2 d2, |b2 - b|) := by
  subst hb2
  simp +decide [scc_process_node, calculate_node_flow, stateAt, stateMid, getNode, getEdge,
    updNode, updEdge, findA, updA, totalIn, setOutFlows, strContains, isInfixB, isPrefixB,
    List.isEmpty]
  linarith

theorem exC9_sweep (bp b d d2 b2 : ℚ) (h0 : 0 ≤ d) (h1 : d ≤ b) (h8 : 0 ≤ b)
    (h2 : b ≤ 90000)
    (hd2 : d2 = 7/10 * b + (1 - 7/10) * d)
    (hb2 : b2 = 7/10 * (60 + d2) + (1 - 7/10) * b) :
    scc_sweep ["B", "A"] (stateAt bp b d)
      = (stateAt b b2 d2, max (max 0 |d2 - d|) |b2 - b|) := by
  have hB := exC9_stepB bp b d d2 h0 h1 h2 hd2
  have hA := exC9_stepA d b d2 b2 h8 h2 (by linarith) (by linarith) hb2
  simp only [scc_sweep, List.foldl_cons, List.foldl_nil]
  rw [hB]
  rw [hA]

/-- The damped iteration on exC9 never converges: every sweep moves A's
output by more than 31 items/min, so all available fuel is consumed and
B's recorded available_input stays one sweep behind A's final output. -/
theorem exC9_go (fuel : Nat) : ∀ bp b d : ℚ,
    0 ≤ d → d ≤ b → b - d ≤ 50 → 1/100 < b - bp → b + 45 * fuel ≤ 90000 →
    ∃ bp2 b2 d2 : ℚ,
      fixed_point_go ["B", "A"] (1/100) fuel (stateAt bp b d) = stateAt bp2 b2 d2
      ∧ 1/100 < b2 - bp2 := by
  induction fuel with
  | zero =>
    intro bp b d h0 h1 h3 h4 h5
    exact ⟨bp, b, d, rfl, h4⟩
  | succ n ih =>
    intro bp b d h0 h1 h3 h4 h5
    have h8 : 0 ≤ b := le_trans h0 h1
    have h2 : b ≤ 90000 := by
      have : (0:ℚ) ≤ 45 * (n+1 : Nat) := by positivity
      linarith
    have hsw := exC9_sweep bp b d (7/10 * b + (1 - 7/10) * d)
      (7/10 * (60 + (7/10 * b + (1 - 7/10) * d)) + (1 - 7/10) * b)
      h0 h1 h8 h2 rfl rfl
    simp only [fixed_point_go]
    rw [hsw]
    have hdelta : ¬ ((stateAt b (7/10 * (60 + (7/10 * b + (1 - 7/10) * d)) + (1 - 7/10) * b)
          (7/10 * b + (1 - 7/10) * d),
        max (max 0 |7/10 * b + (1 - 7/10) * d - d|)
          |7/10 * (60 + (7/10 * b + (1 - 7/10) * d)) + (1 - 7/10) * b - b|).2 < 1/100) := by
      have habs : |7/10 * (60 + (7/10 * b + (1 - 7/10) * d)) + (1 - 7/10) * b - b|
          = 7/10 * (60 + (7/10 * b + (1 - 7/10) * d)) + (1 - 7/10) * b - b := by
        rw [abs_of_nonneg]
        linarith
      simp only [not_lt]
      calc (1:ℚ)/100 ≤ |7/10 * (60 + (7/10 * b + (1 - 7/10) * d)) + (1 - 7/10) * b - b| := by
            rw [habs]; linarith
        _ ≤ _ := le_max_right _ _
    rw [if_neg hdelta]
    have hcast : ((n+1 : Nat) : ℚ) = (n : ℚ) + 1 := by push_cast; ring
    refine ih b (7/10 * (60 + (7/10 * b + (1 - 7/10) * d)) + (1 - 7/10) * b)
      (7/10 * b + (1 - 7/10) * d) (by linarith) (by linarith) (by linarith) (by linarith)
      (by rw [hcast] at h5; linarith)

theorem exC9_entry : propagate_flow exC9 = fixed_point_scc ["B", "A"] gM := by
  simp +decide [propagate_flow, build_adj, init_miners, init_step, comp_step, tarjan_scc,
    tarjan_outer, tarjan_loop,
    tarjan_visit, tarjan_scan, tarjan_fuel, all_nodes_of, insertNew, pop_scc, scc_index_of,
    scc_index_go, build_cond, condensation_topo_order, kahn_go, calculate_node_flow, exC9, gM,
    getNode, getEdge, updNode, updEdge, findA, updA, keysA, hasKey, memB, filterB, nthD, setN,
    totalIn, setOutFlows, miner_base_rate, MINER_BASE_RATES, strContains, isInfixB, isPrefixB,
    List.isEmpty]
  norm_num

theorem exC9_first : fixed_point_scc ["B", "A"] gM
    = fixed_point_go ["B", "A"] (1/100) 99 (stateAt 0 42 0) := by
  have hsweep : scc_sweep ["B", "A"] gM = (stateAt 0 42 0, 42) := by
    simp +decide [scc_sweep, scc_process_node, calculate_node_flow, gM, stateAt, getNode,
      getEdge, updNode, updEdge, findA, updA, totalIn, setOutFlows, strContains, isInfixB,
      isPrefixB, List.isEmpty]
    norm_num
  rw [show fixed_point_scc ["B", "A"] gM = fixed_point_go ["B", "A"] (1/100) 100 gM from rfl]
  rw [show (100 : Nat) = 99 + 1 from rfl]
  simp only [fixed_point_go]
  rw [hsweep]
  rw [if_neg (show ¬(((stateAt 0 42 0, (42 : ℚ)).2 : ℚ) < 1/100) by norm_num)]

/-- C9 counterexample: on exC9 (a miner feeding a two-storage cycle) the
fixed-point iteration stops at the 100-iteration cap without converging,
and storage B ends with available_input differing from the sum of its
incoming flow_rates by more than epsilon = 0.01. -/
theorem C9_counterexample :
    1/100 < |(getNode (propagate_flow exC9) "B").available_input
      - totalIn (propagate_flow exC9) (getNode (propagate_flow exC9) "B")| := by
  obtain ⟨bp2, b2, d2, heq, hgt⟩ := exC9_go 99 0 42 0 (by norm_num) (by norm_num)
    (by norm_num) (by norm_num) (by norm_num)
  have hfull : propagate_flow exC9 = stateAt bp2 b2 d2 := by
    rw [exC9_entry, exC9_first, heq]
  rw [hfull]
  have h1 : (getNode (stateAt bp2 b2 d2) "B").available_input = bp2 := by
    simp +decide [stateAt, getNode, findA]
  have h2 : totalIn (stateAt bp2 b2 d2) (getNode (stateAt bp2 b2 d2) "B") = b2 := by
    simp +decide [stateAt, getNode, getEdge, findA, totalIn]
  rw [h1, h2]
  rw [abs_sub_comm, abs_of_pos (by linarith)]
  linarith

/-- C9 (amended): available_input records the total incoming flow as
read at the node's own evaluation — _calculate_node_flow and every
_fixed_point_scc member step set it to the sum of the incoming
flow_rates at call time.  For members of a multi-node SCC stopped at the
100-iteration cap the incoming flows keep moving after that last read,
so the equality against the final flows can fail by far more than
epsilon (see the C9 counterexample). -/
theorem C9_available_input_amended (g : FlowGraph) (nid : String)
    (hk : hasKey g.nodes nid = true) :
    (getNode (calculate_node_flow nid g) nid).available_input
        = totalIn g (getNode g nid)
    ∧ (getNode (scc_process_node g nid).1 nid).available_input
        = totalIn g (getNode g nid) :=
  ⟨cnf_available_input g nid hk, spn_available_input g nid hk⟩

theorem C9_witness :
    (getNode (calculate_node_flow "A" exC9) "A").available_input
        = totalIn exC9 (getNode exC9 "A")
    ∧ (getNode (scc_process_node exC9 "A").1 "A").available_input
        = totalIn exC9 (getNode exC9 "A") :=
  C9_available_input_amended exC9 "A" (by decide)

end SatOpt

namespace SatOpt

/-! ### C1: conduit flows stay within [0, max_rate] -/

theorem findA_prop {α : Type} (Q : α → Prop) (l : List (String × α)) (k : String) (d : α)
    (hl : ∀ p ∈ l, Q p.2) (hd : Q d) : Q (findA l k d) := by
  induction l with
  | nil => exact hd
  | cons p t ih =>
    simp only [findA]
    split
    · exact hl p (List.mem_cons_self p t)
    · exact ih (fun q hq => hl q (List.mem_cons_of_mem p hq))

theorem forall_updA {α : Type} (Q : α → Prop) (l : List (String × α)) (k : String)
    (f : α → α) (hl : ∀ p ∈ l, Q p.2) (hf : ∀ x, Q x → Q (f x)) :
    ∀ p ∈ updA l k f, Q p.2 := by
  intro p hp
  rcases List.mem_map.mp hp with ⟨q, hq, rfl⟩
  by_cases hq1 : q.1 = k
  · simpa [hq1] using hf q.2 (hl q hq)
  · simpa [hq1] using hl q hq

theorem edgeInv_default : edgeInv (default : FlowEdge) := ⟨le_refl 0, le_refl 0, le_refl 0⟩

theorem nodeInv_default : nodeInv (default : FlowNode) := ⟨le_refl 0, le_refl 0, le_refl 0⟩

theorem getEdge_edgeInv (g : FlowGraph) (eid : String)
    (he : ∀ p ∈ g.edges, edgeInv p.2) : edgeInv (getEdge g eid) :=
  findA_prop edgeInv g.edges eid default he edgeInv_default

theorem getNode_nodeInv (g : FlowGraph) (nid : String)
    (hn : ∀ p ∈ g.nodes, nodeInv p.2) : nodeInv (getNode g nid) :=
  findA_prop nodeInv g.nodes nid default hn nodeInv_default

theorem totalIn_nonneg (g : FlowGraph) (n : FlowNode)
    (he : ∀ p ∈ g.edges, edgeInv p.2) : 0 ≤ totalIn g n := by
  refine List.sum_nonneg ?_
  intro x hx
  rcases List.mem_map.mp hx with ⟨e, _, rfl⟩
  exact (getEdge_edgeInv g e he).1

theorem graphInv_updNode (g : FlowGraph) (nid : String) (f : FlowNode → FlowNode)
    (hf : ∀ x, nodeInv x → nodeInv (f x)) (h : graphInv g) : graphInv (updNode g nid f) :=
  ⟨h.1, forall_updA nodeInv g.nodes nid f h.2 hf⟩

theorem edges_forall_setOutFlows (outs : List String) :
    ∀ (g : FlowGraph) (v : ℚ), 0 ≤ v → (∀ p ∈ g.edges, edgeInv p.2) →
      ∀ p ∈ (setOutFlows g outs v).edges, edgeInv p.2 := by
  induction outs with
  | nil => intro g v _ h; exact h
  | cons e t ih =>
    intro g v hv h
    rw [setOutFlows_cons]
    refine ih _ v hv ?_
    exact forall_updA edgeInv g.edges e
      (fun ed => { ed with flow_rate := min v ed.max_rate }) h
      (fun x hx => ⟨le_min hv hx.2.2, min_le_right _ _, hx.2.2⟩)

theorem graphInv_setOutFlows (g : FlowGraph) (outs : List String) (v : ℚ)
    (hv : 0 ≤ v) (h : graphInv g) : graphInv (setOutFlows g outs v) := by
  constructor
  · exact edges_forall_setOutFlows outs g v hv h.1
  · rw [nodes_setOutFlows]
    exact h.2

set_option maxHeartbeats 1000000 in
theorem graphInv_calculate_node_flow (nid : String) (g : FlowGraph)
    (h : graphInv g) : graphInv (calculate_node_flow nid g) := by
  have hti : 0 ≤ totalIn g (getNode g nid) := totalIn_nonneg g _ h.1
  have hexp : 0 ≤ ratesSum (getNode g nid).expected_outputs := (getNode_nodeInv g nid h.2).2.2
  have h1 : graphInv (updNode g nid
      (fun n => { n with available_input := totalIn g (getNode g nid) })) :=
    graphInv_updNode _ _ _ (fun x hx => hx) h
  simp only [calculate_node_flow]
  repeat' split
  all_goals first
    | (refine graphInv_setOutFlows _ _ _ ?_
        (graphInv_updNode _ _ _ (fun x hx => ⟨?_, hx.2⟩) h1))
    | (refine graphInv_updNode _ _ _ (fun x hx => ⟨?_, hx.2⟩) h1)
    | exact h1
  all_goals first
    | exact hti
    | exact div_nonneg hti (by positivity)
    | exact mul_nonneg hexp (le_min (div_nonneg hti
        (le_of_lt ‹0 < ratesSum (getNode g nid).expected_inputs›)) zero_le_one)
    | exact mul_nonneg hexp zero_le_one
    | exact div_nonneg (mul_nonneg hexp (le_min (div_nonneg hti
        (le_of_lt ‹0 < ratesSum (getNode g nid).expected_inputs›)) zero_le_one)) (by positivity)
    | exact div_nonneg (mul_nonneg hexp zero_le_one) (by positivity)

theorem graphInv_scc_process_node (g : FlowGraph) (nid : String)
    (h : graphInv g) : graphInv (scc_process_node g nid).1 := by
  have hg1 := graphInv_calculate_node_flow nid g h
  have hnew : 0 ≤ (getNode (calculate_node_flow nid g) nid).available_output :=
    (getNode_nodeInv _ _ hg1.2).1
  have hold : 0 ≤ (getNode g nid).available_output := (getNode_nodeInv _ _ h.2).1
  have hdamped : 0 ≤ (7/10 : ℚ) * (getNode (calculate_node_flow nid g) nid).available_output
      + (1 - 7/10) * (getNode g nid).available_output :=
    add_nonneg (mul_nonneg (by norm_num) hnew) (mul_nonneg (by norm_num) hold)
  simp only [scc_process_node]
  split
  · exact graphInv_updNode _ _ _ (fun x hx => ⟨hdamped, hx.2⟩) hg1
  · exact graphInv_setOutFlows _ _ _ (div_nonneg hdamped (by positivity))
      (graphInv_updNode _ _ _ (fun x hx => ⟨hdamped, hx.2⟩) hg1)

theorem scc_sweep_inv (l : List String) : ∀ (g : FlowGraph) (m : ℚ), graphInv g →
    graphInv (l.foldl (fun acc nid =>
      let r := scc_process_node acc.1 nid
      (r.1, max acc.2 r.2)) (g, m)).1 := by
  induction l with
  | nil => intro g m h; exact h
  | cons c cs ih =>
    intro g m h
    simp only [List.foldl_cons]
    exact ih _ _ (graphInv_scc_process_node g c h)

theorem graphInv_scc_sweep (l : List String) (g : FlowGraph) (h : graphInv g) :
    graphInv (scc_sweep l g).1 :=
  scc_sweep_inv l g 0 h

theorem graphInv_fixed_point_go (l : List String) (eps : ℚ) :
    ∀ (fuel : Nat) (g : FlowGraph), graphInv g → graphInv (fixed_point_go l eps fuel g) := by
  intro fuel
  induction fuel with
  | zero => intro g h; exact h
  | succ n ih =>
    intro g h
    simp only [fixed_point_go]
    split
    · exact graphInv_scc_sweep l g h
    · exact ih _ (graphInv_scc_sweep l g h)

theorem graphInv_fixed_point_scc (l : List String) (g : FlowGraph) (h : graphInv g) :
    graphInv (fixed_point_scc l g) :=
  graphInv_fixed_point_go l (1/100) 100 g h

theorem foldl_graphInv {γ : Type} (f : FlowGraph → γ → FlowGraph)
    (hf : ∀ g x, graphInv g → graphInv (f g x)) :
    ∀ (l : List γ) (g : FlowGraph), graphInv g → graphInv (l.foldl f g) := by
  intro l
  induction l with
  | nil => intro g h; exact h
  | cons c cs ih => intro g h; exact ih _ (hf g c h)

theorem mbr_nonneg (name : String) : 0 ≤ miner_base_rate name := by
  refine findA_prop (fun q : ℚ => 0 ≤ q) MINER_BASE_RATES name 0 ?_ (le_refl 0)
  intro p hp
  fin_cases hp <;> norm_num

theorem graphInv_init_step (g : FlowGraph) (nid : String) (h : graphInv g) :
    graphInv (init_step g nid) := by
  have hmbr : 0 ≤ miner_base_rate (getNode g nid).building_name * (getNode g nid).clock_speed :=
    mul_nonneg (mbr_nonneg _) (getNode_nodeInv g nid h.2).2.1
  simp only [init_step]
  repeat' split
  all_goals first
    | exact h
    | exact graphInv_updNode _ _ _ (fun x hx => ⟨hmbr, hx.2⟩) h
    | exact graphInv_setOutFlows _ _ _ (div_nonneg hmbr (by positivity))
        (graphInv_updNode _ _ _ (fun x hx => ⟨hmbr, hx.2⟩) h)

theorem graphInv_init_miners (g : FlowGraph) (h : graphInv g) :
    graphInv (init_miners g) :=
  foldl_graphInv init_step graphInv_init_step (keysA g.nodes) g h

theorem graphInv_comp_step (sccs : List (List String)) (g : FlowGraph) (i : Nat)
    (h : graphInv g) : graphInv (comp_step sccs g i) := by
  unfold comp_step
  rcases hl : nthD sccs i [] with _ | ⟨nid, _ | ⟨b2, t2⟩⟩
  · exact graphInv_fixed_point_scc [] g h
  · exact graphInv_calculate_node_flow nid g h
  · exact graphInv_fixed_point_scc (nid :: b2 :: t2) g h

/-- C1: conduit flow rates stay inside [0, max_rate].  Given a graph
whose conduits start inside the invariant (with nonnegative max_rate,
clock_speed and recipe output rates), propagate_flow keeps every
conduit's flow_rate in [0, max_rate]; so do the miner initialization,
every singleton evaluation of _calculate_node_flow and every damped
rewrite of a _fixed_point_scc member step on their own. -/
theorem C1_flow_in_bounds (g : FlowGraph)
    (he : ∀ p ∈ g.edges, edgeInv p.2) (hn : ∀ p ∈ g.nodes, nodeInv p.2) :
    (∀ p ∈ (propagate_flow g).edges, 0 ≤ p.2.flow_rate ∧ p.2.flow_rate ≤ p.2.max_rate)
    ∧ (∀ p ∈ (init_miners g).edges, 0 ≤ p.2.flow_rate ∧ p.2.flow_rate ≤ p.2.max_rate)
    ∧ (∀ nid, ∀ p ∈ (calculate_node_flow nid g).edges,
        0 ≤ p.2.flow_rate ∧ p.2.flow_rate ≤ p.2.max_rate)
    ∧ (∀ nid, ∀ p ∈ (scc_process_node g nid).1.edges,
        0 ≤ p.2.flow_rate ∧ p.2.flow_rate ≤ p.2.max_rate) := by
  have h : graphInv g := ⟨he, hn⟩
  have hpf : graphInv (propagate_flow g) :=
    foldl_graphInv (comp_step (tarjan_scc (build_adj g)))
      (graphInv_comp_step (tarjan_scc (build_adj g)))
      (condensation_topo_order (tarjan_scc (build_adj g)) (build_adj g))
      (init_miners g) (graphInv_init_miners g h)
  refine ⟨fun p hp => ⟨(hpf.1 p hp).1, (hpf.1 p hp).2.1⟩,
    fun p hp => ⟨((graphInv_init_miners g h).1 p hp).1,
      ((graphInv_init_miners g h).1 p hp).2.1⟩,
    fun nid p hp => ⟨((graphInv_calculate_node_flow nid g h).1 p hp).1,
      ((graphInv_calculate_node_flow nid g h).1 p hp).2.1⟩,
    fun nid p hp => ⟨((graphInv_scc_process_node g nid h).1 p hp).1,
      ((graphInv_scc_process_node g nid h).1 p hp).2.1⟩⟩

theorem C1_witness :
    ((∀ p ∈ (propagate_flow exC9).edges, 0 ≤ p.2.flow_rate ∧ p.2.flow_rate ≤ p.2.max_rate)
    ∧ (∀ p ∈ (init_miners exC9).edges, 0 ≤ p.2.flow_rate ∧ p.2.flow_rate ≤ p.2.max_rate)
    ∧ (∀ nid, ∀ p ∈ (calculate_node_flow nid exC9).edges,
        0 ≤ p.2.flow_rate ∧ p.2.flow_rate ≤ p.2.max_rate)
    ∧ (∀ nid, ∀ p ∈ (scc_process_node exC9 nid).1.edges,
        0 ≤ p.2.flow_rate ∧ p.2.flow_rate ≤ p.2.max_rate)) :=
  C1_flow_in_bounds exC9
    (by intro p hp; fin_cases hp <;> norm_num [edgeInv, exC9])
    (by intro p hp; fin_cases hp <;> norm_num [nodeInv, ratesSum, exC9])

end SatOpt
